import Mathlib

/-!
# CraftGE: `Model.cpp`

A shallow embedding of `src/Model.cpp` (the asset loader of CraftGE) and the
properties of it that the specification states.

Conventions of the embedding.

* A C array together with its element count is a `List`; the count is the
  length.  An array pointer that the code tests for null, or that the importer
  may leave null, is an `Option (List _)`.
* A run of the code either returns normally (`Except.ok`) or stops in a
  `Fault`: a read through a null pointer, a read past the end of an array, or
  an error raised by the cache.
* Loop counters and indices are natural numbers; the overflow of an `int`
  counter needs an array of `2^31` entries and is not modelled.
* Mutable members of `Model` (`mChildren`, `mTextureLoaded`, `directory`) are
  threaded explicitly; the process-wide `ModelManager` singleton and the log of
  calls to collaborators are threaded in a `World`.
-/

set_option autoImplicit false

namespace CraftGE

/-! ## Values -/

/-- A `float`, given by its bit pattern.  The code only copies floats and
writes the literal `0.0f`, whose bit pattern is zero. -/
structure float where
  bits : Nat
deriving DecidableEq, Repr

/-- The literal `0.0f`. -/
def float.zero : float := ⟨0⟩

/-- Vector type of the importer (`aiVector3D`). -/
structure aiVector3D where
  x : float
  y : float
  z : float
deriving DecidableEq, Repr

/-- The vector `glm::vec3`. -/
structure vec3 where
  x : float
  y : float
  z : float
deriving DecidableEq, Repr

/-- The vector `glm::vec2`. -/
structure vec2 where
  x : float
  y : float
deriving DecidableEq, Repr

/-- The record `Vertex` filled by `processMesh`. -/
structure Vertex where
  Position : vec3
  Normal : vec3
  Tangent : vec3
  TexCoords : vec2
deriving DecidableEq, Repr

/-- Modelled from the spec: the class `Texture` (its header and implementation
are not part of the source tree).  A TextureRef is a resolved path together
with a role tag; `Texture(path, typeName)` builds one and `getPath()` reads the
path back. -/
structure Texture where
  path : String
  typeName : String
deriving DecidableEq, Repr

/-- The accessor `Texture::getPath`. -/
def Texture.getPath (t : Texture) : String := t.path

/-- Modelled from the spec: the class `Mesh` (not part of the source tree).  A
MeshRecord is an ordered sequence of vertices, of indices and of texture
references; as a scene node it also carries the parent set by `setParent`,
here the address of the owning object. -/
structure Mesh where
  vertices : List Vertex
  indices : List Nat
  textures : List Texture
  mParent : Option Nat
deriving DecidableEq, Repr

/-- The constructor `Mesh(vertices, indices, textures)`: a node without parent. -/
def Mesh.new (vertices : List Vertex) (indices : List Nat) (textures : List Texture) : Mesh :=
  { vertices := vertices, indices := indices, textures := textures, mParent := none }

/-- The setter `setParent`. -/
def Mesh.setParent (m : Mesh) (parent : Nat) : Mesh :=
  { m with mParent := some parent }

/-- Two meshes have the same vertex, index and texture content. -/
def Mesh.sameContent (a b : Mesh) : Prop :=
  a.vertices = b.vertices ∧ a.indices = b.indices ∧ a.textures = b.textures

instance (a b : Mesh) : Decidable (Mesh.sameContent a b) := by
  unfold Mesh.sameContent; infer_instance

/-! ## The imported scene -/

/-- A face of the importer (`aiFace`): `mIndices` with `mNumIndices` entries. -/
structure aiFace where
  mIndices : List Nat
deriving DecidableEq, Repr

/-- Texture types of the importer (`aiTextureType`), those the code names and
some it does not. -/
inductive aiTextureType where
  | NONE
  | DIFFUSE
  | SPECULAR
  | AMBIENT
  | EMISSIVE
  | HEIGHT
  | NORMALS
deriving DecidableEq, Repr

/-- A material of the importer (`aiMaterial`): for every texture type the
texture paths it declares; `GetTextureCount(type)` is the length of the list and
`GetTexture(type, i, &str)` its `i`-th entry. -/
structure aiMaterial where
  textures : aiTextureType → List String

/-- A geometry unit of the importer (`aiMesh`).  `mVertices` has `mNumVertices`
entries; the other per-vertex arrays may be null.  `mTextureCoords0` is
`mTextureCoords[0]`.  The field `mMaterialIndex` is the `unsigned int` of the
importer: a natural number, so that a value written as `-1` arrives as
`4294967295`. -/
structure aiMesh where
  mVertices : List aiVector3D
  mNormals : Option (List aiVector3D)
  mTangents : Option (List aiVector3D)
  mTextureCoords0 : Option (List aiVector3D)
  mFaces : List aiFace
  mMaterialIndex : Nat

/-- A node of the imported tree (`aiNode`): the indices of its meshes in the
scene (`mMeshes`, `mNumMeshes` entries) and its children (`mChildren`,
`mNumChildren` entries). -/
inductive aiNode where
  | mk (mMeshes : List Nat) (mChildren : List aiNode)

/-- The field `aiNode::mMeshes`. -/
def aiNode.mMeshes : aiNode → List Nat
  | .mk ms _ => ms

/-- The field `aiNode::mChildren`. -/
def aiNode.mChildren : aiNode → List aiNode
  | .mk _ cs => cs

/-- An imported scene (`aiScene`). -/
structure aiScene where
  mFlags : Nat
  mRootNode : Option aiNode
  mMeshes : List aiMesh
  mMaterials : List aiMaterial

/-- The flag `AI_SCENE_FLAGS_INCOMPLETE` of the importer. -/
def AI_SCENE_FLAGS_INCOMPLETE : Nat := 1

/-! ## Faults and array reads -/

/-- Ways in which a run of the code stops without returning. -/
inductive Fault where
  | nullDeref
  | outOfBounds
  | cacheMiss
  | cacheConflict
deriving DecidableEq, Repr

/-- The read `arr[i]` through an array pointer that may be null. -/
def readAt {α : Type} (arr : Option (List α)) (i : Nat) : Except Fault α :=
  match arr with
  | none => .error .nullDeref
  | some l =>
    match l[i]? with
    | some a => .ok a
    | none => .error .outOfBounds

/-! ## Strings -/

/-- The position `std::string::find_last_of(c)` on the characters of a string:
the index of the last occurrence of `c`, or `none` for `npos`. -/
def find_last_of : List Char → Char → Option Nat
  | [], _ => none
  | x :: xs, c =>
    match find_last_of xs c with
    | some i => some (i + 1)
    | none => if x = c then some 0 else none

/-- The substring `std::string::substr(pos, count)` on the characters of a
string, `count = none` standing for `npos`: at most `count` characters from
`pos` on. -/
def substr (s : List Char) (pos : Nat) (count : Option Nat) : List Char :=
  match count with
  | some n => (s.drop pos).take n
  | none => s.drop pos

/-- The expression `path.substr(0, path.find_last_of('/'))` of `loadModel`. -/
def directoryOf (path : String) : String :=
  String.mk (substr path.data 0 (find_last_of path.data '/'))

/-! ## The model object -/

/-- The members of a `Model` that `Model.cpp` touches; `addr` is the address of
the object (`this`). -/
structure Model where
  addr : Nat
  mChildren : List Mesh
  mTextureLoaded : List Texture
  directory : String
  mIsOpaque : Bool
  mIsCullFace : Bool
deriving DecidableEq, Repr

/-- The member initialisers of the constructor: no children, no texture
loaded, empty directory, `mIsOpaque(true)`, `mIsCullFace(true)`. -/
def Model.init (addr : Nat) : Model :=
  { addr := addr, mChildren := [], mTextureLoaded := [], directory := "",
    mIsOpaque := true, mIsCullFace := true }

/-! ## `loadMaterialTextures` -/

/-- The inner loop of `loadMaterialTextures`: scan `mTextureLoaded` from the
front and stop (`break`) at the first entry whose path is `complete_path`. -/
def scanLoaded (complete_path : String) : List Texture → Option Texture
  | [] => none
  | t :: ts => if t.getPath = complete_path then some t else scanLoaded complete_path ts

/-- One iteration of the outer loop of `loadMaterialTextures`, for the declared
path `str`: the state is the local `textures` and the model. -/
def loadMaterialTexturesStep (typeName : String) (acc : List Texture × Model) (str : String) :
    List Texture × Model :=
  let complete_path := acc.2.directory ++ "/" ++ str
  match scanLoaded complete_path acc.2.mTextureLoaded with
  | some t => (acc.1 ++ [t], acc.2)
  | none =>
    let t : Texture := ⟨complete_path, typeName⟩
    (acc.1 ++ [t], { acc.2 with mTextureLoaded := acc.2.mTextureLoaded ++ [t] })

/-- The method `Model::loadMaterialTextures`: returns the local `textures` and
the model with `mTextureLoaded` updated. -/
def loadMaterialTextures (mat : aiMaterial) (type : aiTextureType) (typeName : String)
    (self : Model) : List Texture × Model :=
  (mat.textures type).foldl (loadMaterialTexturesStep typeName) ([], self)

/-! ## `processMesh` -/

/-- The body of the vertex loop of `processMesh` for index `i`, `p` being
`mesh->mVertices[i]`. -/
def buildVertex (mesh : aiMesh) (i : Nat) (p : aiVector3D) : Except Fault Vertex :=
  match readAt mesh.mNormals i with
  | .error e => .error e
  | .ok n =>
    match readAt mesh.mTangents i with
    | .error e => .error e
    | .ok t =>
      match mesh.mTextureCoords0 with
      | some tc =>
        match readAt (some tc) i with
        | .error e => .error e
        | .ok c =>
          .ok { Position := ⟨p.x, p.y, p.z⟩, Normal := ⟨n.x, n.y, n.z⟩,
                Tangent := ⟨t.x, t.y, t.z⟩, TexCoords := ⟨c.x, c.y⟩ }
      | none =>
        .ok { Position := ⟨p.x, p.y, p.z⟩, Normal := ⟨n.x, n.y, n.z⟩,
              Tangent := ⟨t.x, t.y, t.z⟩, TexCoords := ⟨float.zero, float.zero⟩ }

/-- The vertex loop of `processMesh`, from index `i` on: `rest` are the entries
of `mVertices` still to visit and `vertices` the local vector. -/
def vertexLoop (mesh : aiMesh) : List aiVector3D → Nat → List Vertex → Except Fault (List Vertex)
  | [], _, vertices => .ok vertices
  | p :: rest, i, vertices =>
    match buildVertex mesh i p with
    | .error e => .error e
    | .ok v => vertexLoop mesh rest (i + 1) (vertices ++ [v])

/-- The face loop of `processMesh`: every index of every face is pushed onto
the local `indices`. -/
def faceLoop (faces : List aiFace) (indices : List Nat) : List Nat :=
  faces.foldl (fun acc face => face.mIndices.foldl (fun acc j => acc ++ [j]) acc) indices

/-- The material block of `processMesh`: the local `textures` after the three
calls of `loadMaterialTextures`, and the model. -/
def materialTextures (material : aiMaterial) (self : Model) : List Texture × Model :=
  let textures : List Texture := []
  let d := loadMaterialTextures material .DIFFUSE "texture_diffuse" self
  let textures := textures ++ d.1
  let s := loadMaterialTextures material .SPECULAR "texture_specular" d.2
  let textures := textures ++ s.1
  let n := loadMaterialTextures material .HEIGHT "texture_normal" s.2
  let textures := textures ++ n.1
  (textures, n.2)

/-- The method `Model::processMesh`: the new mesh and the model (whose
`mTextureLoaded` may have grown).  The guard `mesh->mMaterialIndex >= 0` is
kept as it is written; on the unsigned field it holds for every value, so the
run always goes on to read `scene->mMaterials[mesh->mMaterialIndex]`. -/
def processMesh (mesh : aiMesh) (scene : aiScene) (self : Model) : Except Fault (Mesh × Model) :=
  match vertexLoop mesh mesh.mVertices 0 [] with
  | .error e => .error e
  | .ok vertices =>
    let indices := faceLoop mesh.mFaces []
    if 0 ≤ mesh.mMaterialIndex then
      match scene.mMaterials[mesh.mMaterialIndex]? with
      | none => .error .outOfBounds
      | some material =>
        let r := materialTextures material self
        .ok (Mesh.new vertices indices r.1, r.2)
    else
      .ok (Mesh.new vertices indices [], self)

/-! ## `processNode` -/

/-- The first loop of `processNode`: for every mesh index of the node, build
the mesh, set its parent and append it to `mChildren`. -/
def meshLoop (scene : aiScene) : List Nat → Model → Except Fault Model
  | [], self => .ok self
  | idx :: rest, self =>
    match scene.mMeshes[idx]? with
    | none => .error .outOfBounds
    | some mesh =>
      match processMesh mesh scene self with
      | .error e => .error e
      | .ok (child, self) =>
        meshLoop scene rest
          { self with mChildren := self.mChildren ++ [child.setParent self.addr] }

mutual
/-- The method `Model::processNode`. -/
def processNode (scene : aiScene) : aiNode → Model → Except Fault Model
  | .mk mMeshes mChildren, self =>
    match meshLoop scene mMeshes self with
    | .error e => .error e
    | .ok self => processChildren scene mChildren self
/-- The second loop of `processNode`: recurse into the children in order. -/
def processChildren (scene : aiScene) : List aiNode → Model → Except Fault Model
  | [], self => .ok self
  | c :: cs, self =>
    match processNode scene c self with
    | .error e => .error e
    | .ok self => processChildren scene cs self
end

/-! ## The shared cache and the collaborators -/

/-- Modelled from the spec: the singleton `ModelManager` (the SharedModelCache;
its source is not part of the source tree), for packed mesh data of type `D`.
A registry keyed by asset path, in insertion order. -/
structure ModelManager (D : Type) where
  entries : List (String × List D)

/-- Modelled from the spec: `has(path) -> bool` of the SharedModelCache, the
method `ModelManager::isModelLoaded`. -/
def ModelManager.isModelLoaded {D : Type} (c : ModelManager D) (path : String) : Bool :=
  (c.entries.lookup path).isSome

/-- Modelled from the spec: `get(path) -> PackedAssetData, fails with CacheMiss
if absent`, the method `ModelManager::getLoadedModel`. -/
def ModelManager.getLoadedModel {D : Type} (c : ModelManager D) (path : String) :
    Except Fault (List D) :=
  match c.entries.lookup path with
  | some data => .ok data
  | none => .error .cacheMiss

/-- Modelled from the spec: `put(path, data) -> void, fails with CacheConflict
if an entry already exists for path`, the method `ModelManager::addModelData`. -/
def ModelManager.addModelData {D : Type} (c : ModelManager D) (path : String) (data : List D) :
    Except Fault (ModelManager D) :=
  if c.isModelLoaded path then .error .cacheConflict
  else .ok ⟨c.entries ++ [(path, data)]⟩

/-- Calls to collaborators that a run makes, in order. -/
inductive Event where
  | readFile (path : String)
  | errorReport
  | getLoadedModel (path : String)
  | addModelData (path : String)
deriving DecidableEq, Repr

/-- The state outside the model object: the process-wide cache and the log of
calls made so far. -/
structure World (D : Type) where
  manager : ModelManager D
  log : List Event

/-- The collaborators whose code is outside `Model.cpp`: the importer
(`Assimp::Importer::ReadFile` with the fixed flags, `none` for a null scene),
`Mesh::packSharedData` and the constructor `Mesh(shared_model_data*)`. -/
structure Collaborators (D : Type) where
  ReadFile : String → Option aiScene
  packSharedData : Mesh → D
  meshOfShared : D → Mesh

/-- Number of invocations of the import collaborator recorded in a log. -/
def parseCount (log : List Event) : Nat :=
  (log.filter (fun e => match e with | .readFile _ => true | _ => false)).length

/-- Paths for which `addModelData` was called, in order, as recorded in a log. -/
def addedPaths : List Event → List String
  | [] => []
  | .addModelData p :: es => p :: addedPaths es
  | _ :: es => addedPaths es

/-! ## Loading -/

/-- The method `Model::saveToShared`. -/
def saveToShared {D : Type} (env : Collaborators D) (path : String) (self : Model) (w : World D) :
    Except Fault (Model × World D) :=
  let data := self.mChildren.foldl (fun data i => data ++ [env.packSharedData i]) []
  match w.manager.addModelData path data with
  | .error e => .error e
  | .ok manager => .ok (self, { manager := manager, log := w.log ++ [.addModelData path] })

/-- The method `Model::loadFromShared`. -/
def loadFromShared {D : Type} (env : Collaborators D) (path : String) (self : Model) (w : World D) :
    Except Fault (Model × World D) :=
  match w.manager.getLoadedModel path with
  | .error e => .error e
  | .ok data =>
    .ok (data.foldl
          (fun (self : Model) i =>
            { self with mChildren := self.mChildren ++ [(env.meshOfShared i).setParent self.addr] })
          self,
         { w with log := w.log ++ [.getLoadedModel path] })

/-- The guard of `loadModel`:
`!scene || scene->mFlags & AI_SCENE_FLAGS_INCOMPLETE || !scene->mRootNode`,
returning the root node when the guard is false. -/
def usableRoot (scene : Option aiScene) : Option (aiScene × aiNode) :=
  match scene with
  | none => none
  | some scene =>
    if scene.mFlags &&& AI_SCENE_FLAGS_INCOMPLETE ≠ 0 then none
    else
      match scene.mRootNode with
      | none => none
      | some root => some (scene, root)

/-- The method `Model::loadModel`. -/
def loadModel {D : Type} (env : Collaborators D) (path : String) (self : Model) (w : World D) :
    Except Fault (Model × World D) :=
  let w : World D := { w with log := w.log ++ [.readFile path] }
  match usableRoot (env.ReadFile path) with
  | none => .ok (self, { w with log := w.log ++ [.errorReport] })
  | some (scene, root) =>
    let self := { self with directory := directoryOf path }
    match processNode scene root self with
    | .error e => .error e
    | .ok self => .ok (self, w)

/-- The constructor `Model::Model(char* path)` of the object at address `addr`. -/
def Model.new {D : Type} (env : Collaborators D) (addr : Nat) (path : String) (w : World D) :
    Except Fault (Model × World D) :=
  let self := Model.init addr
  if w.manager.isModelLoaded path then
    loadFromShared env path self w
  else
    match loadModel env path self w with
    | .error e => .error e
    | .ok (self, w) => saveToShared env path self w

/-- A sequence of constructions, each given by the address of the new object
and the path: the models built, in order, and the final world. -/
def loadAll {D : Type} (env : Collaborators D) :
    List (Nat × String) → World D → Except Fault (List Model × World D)
  | [], w => .ok ([], w)
  | (addr, path) :: rest, w =>
    match Model.new env addr path w with
    | .error e => .error e
    | .ok (m, w) =>
      match loadAll env rest w with
      | .error e => .error e
      | .ok (ms, w) => .ok (m :: ms, w)

/-! ## Notions used to state the properties -/

mutual
/-- The mesh references of an imported tree in depth-first pre-order: those of
the node in stored order, then those of each child in order. -/
def meshRefs : aiNode → List Nat
  | .mk mMeshes mChildren => mMeshes ++ meshRefsList mChildren
/-- The mesh references of a sequence of trees, tree after tree. -/
def meshRefsList : List aiNode → List Nat
  | [] => []
  | c :: cs => meshRefs c ++ meshRefsList cs
end

/-- An array pointer is not null and the array has at least `n` entries. -/
def arrayCovers {α : Type} (arr : Option (List α)) (n : Nat) : Bool :=
  match arr with
  | none => false
  | some l => decide (n ≤ l.length)

/-- The per-vertex arrays that the vertex loop of `processMesh` reads can be
read at every vertex index: normals and tangents are present with an entry for
every vertex, and so is channel 0 of the texture coordinates when present. -/
def vertexArraysReadable (mesh : aiMesh) : Bool :=
  arrayCovers mesh.mNormals mesh.mVertices.length &&
  arrayCovers mesh.mTangents mesh.mVertices.length &&
  (mesh.mTextureCoords0.isNone || arrayCovers mesh.mTextureCoords0 mesh.mVertices.length)

/-- The material index of the mesh resolves to a material of the scene. -/
def materialReadable (mesh : aiMesh) (scene : aiScene) : Bool :=
  decide (mesh.mMaterialIndex < scene.mMaterials.length)

/-- Every mesh reference in the list resolves to a mesh of the scene whose
per-vertex arrays and material can be read. -/
def refsReadable (scene : aiScene) (refs : List Nat) : Bool :=
  refs.all fun idx =>
    match scene.mMeshes[idx]? with
    | none => false
    | some mesh => vertexArraysReadable mesh && materialReadable mesh scene

/-- A sequence of calls of `loadMaterialTextures` made by one model, each
given by its arguments: the lists returned, in order, and the model. -/
def loadMaterialTexturesSeq :
    List (aiMaterial × aiTextureType × String) → Model → List (List Texture) × Model
  | [], self => ([], self)
  | (mat, type, typeName) :: rest, self =>
    let r := loadMaterialTextures mat type typeName self
    let rs := loadMaterialTexturesSeq rest r.2
    (r.1 :: rs.1, rs.2)

/-- The import collaborator reports failure for the path: null scene,
incomplete flag set, or no root node. -/
def importFails {D : Type} (env : Collaborators D) (path : String) : Prop :=
  match env.ReadFile path with
  | none => True
  | some scene => scene.mFlags &&& AI_SCENE_FLAGS_INCOMPLETE ≠ 0 ∨ scene.mRootNode = none

/-! ## Sample data -/

namespace Example

/-- A packed mesh: the three content sequences, without the parent. -/
abbrev Packed : Type := List Vertex × List Nat × List Texture

/-- Packing keeps the content of a mesh. -/
def pack (m : Mesh) : Packed := (m.vertices, m.indices, m.textures)

/-- A mesh rebuilt from packed content. -/
def unpack (d : Packed) : Mesh := Mesh.new d.1 d.2.1 d.2.2

/-- A point of the sample meshes. -/
def point (a b c : Nat) : aiVector3D := ⟨⟨a⟩, ⟨b⟩, ⟨c⟩⟩

/-- A material that declares the same file as diffuse and as specular map. -/
def wood : aiMaterial :=
  ⟨fun type =>
    match type with
    | .DIFFUSE => ["wood.png"]
    | .SPECULAR => ["wood.png"]
    | _ => []⟩

/-- A second material that declares the file of `wood` again. -/
def plank : aiMaterial :=
  ⟨fun type =>
    match type with
    | .DIFFUSE => ["wood.png", "grain.png"]
    | _ => []⟩

/-- A quad of two triangles, without texture coordinates. -/
def quad : aiMesh :=
  { mVertices := [point 0 0 0, point 1 0 0, point 1 1 0, point 0 1 0]
    mNormals := some [point 0 0 1, point 0 0 1, point 0 0 1, point 0 0 1]
    mTangents := some [point 1 0 0, point 1 0 0, point 1 0 0, point 1 0 0]
    mTextureCoords0 := none
    mFaces := [⟨[0, 1, 2]⟩, ⟨[2, 3, 0]⟩]
    mMaterialIndex := 0 }

/-- A triangle with texture coordinates and the second material. -/
def triangle : aiMesh :=
  { mVertices := [point 0 0 0, point 1 0 0, point 0 1 0]
    mNormals := some [point 0 0 1, point 0 0 1, point 0 0 1]
    mTangents := some [point 1 0 0, point 1 0 0, point 1 0 0]
    mTextureCoords0 := some [point 0 0 9, point 5 0 9, point 0 5 9]
    mFaces := [⟨[0, 1, 2]⟩]
    mMaterialIndex := 1 }

/-- A line segment: one face of two indices. -/
def segment : aiMesh :=
  { mVertices := [point 0 0 0, point 1 0 0]
    mNormals := some [point 0 0 1, point 0 0 1]
    mTangents := some [point 1 0 0, point 1 0 0]
    mTextureCoords0 := none
    mFaces := [⟨[0, 1]⟩]
    mMaterialIndex := 0 }

/-- The quad as the importer leaves it when it computes no tangents: the
tangent array is null. -/
def untangented : aiMesh := { quad with mTangents := none }

/-- The quad with a material index past the materials of the scene. -/
def unresolved : aiMesh := { quad with mMaterialIndex := 5 }

/-- The quad with the material index that the value `-1` becomes in the
unsigned field. -/
def unassigned : aiMesh := { quad with mMaterialIndex := 4294967295 }

/-- A tree: the root holds the quad, its first child the triangle and the quad
again, its second child nothing but a grandchild with the segment. -/
def tree : aiNode :=
  .mk [0] [.mk [1, 0] [], .mk [] [.mk [2] []]]

/-- A complete scene over the sample meshes. -/
def scene : aiScene :=
  { mFlags := 0, mRootNode := some tree, mMeshes := [quad, triangle, segment],
    mMaterials := [wood, plank] }

/-- An importer that knows two files with the same content and fails on every
other path. -/
def importer : Collaborators Packed :=
  { ReadFile := fun path =>
      if path = "assets/crate.obj" then some scene
      else if path = "crate.obj" then some scene
      else none
    packSharedData := pack
    meshOfShared := unpack }

/-- The world before any load. -/
def world0 : World Packed := ⟨⟨[]⟩, []⟩

end Example


/-! ## Lemmas on `processMesh` -/

theorem pushLoop_eq (js acc : List Nat) :
    js.foldl (fun acc j => acc ++ [j]) acc = acc ++ js := by
  induction js generalizing acc with
  | nil => simp
  | cons j js ih => simp [List.foldl_cons, ih]

theorem faceLoop_eq (faces : List aiFace) (acc : List Nat) :
    faceLoop faces acc = acc ++ (faces.map aiFace.mIndices).flatten := by
  unfold faceLoop
  induction faces generalizing acc with
  | nil => simp
  | cons f fs ih =>
    rw [List.foldl_cons, ih, pushLoop_eq]
    simp

theorem readAt_ok_of_covers {α : Type} (arr : Option (List α)) (n i : Nat)
    (h : arrayCovers arr n = true) (hi : i < n) : ∃ a, readAt arr i = .ok a := by
  cases arr with
  | none => simp [arrayCovers] at h
  | some l =>
    simp only [arrayCovers, decide_eq_true_eq] at h
    have hl : i < l.length := by omega
    exact ⟨l[i], by simp [readAt, List.getElem?_eq_getElem hl]⟩

theorem readAt_ok_iff {α : Type} (arr : Option (List α)) (i : Nat) (a : α) :
    readAt arr i = .ok a ↔ ∃ l, arr = some l ∧ l[i]? = some a := by
  cases arr with
  | none => simp [readAt]
  | some l =>
    cases h : l[i]? with
    | none => simp [readAt, h]
    | some b => simp [readAt, h]

theorem buildVertex_total (mesh : aiMesh) (i : Nat) (p : aiVector3D)
    (h : vertexArraysReadable mesh = true) (hi : i < mesh.mVertices.length) :
    ∃ v, buildVertex mesh i p = .ok v := by
  simp only [vertexArraysReadable, Bool.and_eq_true, Bool.or_eq_true] at h
  obtain ⟨⟨hn, ht⟩, hc⟩ := h
  obtain ⟨n, hn⟩ := readAt_ok_of_covers _ _ i hn hi
  obtain ⟨t, ht⟩ := readAt_ok_of_covers _ _ i ht hi
  unfold buildVertex
  rw [hn, ht]
  cases htc : mesh.mTextureCoords0 with
  | none => exact ⟨_, rfl⟩
  | some tc =>
    rw [htc] at hc
    simp only [Option.isNone_some, Bool.false_eq_true, false_or] at hc
    obtain ⟨c, hc⟩ := readAt_ok_of_covers _ _ i hc hi
    simp only [hc]
    exact ⟨_, rfl⟩

/-- What a vertex built by the loop body looks like. -/
theorem buildVertex_ok_inv (mesh : aiMesh) (i : Nat) (p : aiVector3D) (v : Vertex)
    (h : buildVertex mesh i p = .ok v) :
    v.Position = ⟨p.x, p.y, p.z⟩ ∧
    (∃ n, readAt mesh.mNormals i = .ok n ∧ v.Normal = ⟨n.x, n.y, n.z⟩) ∧
    (∃ t, readAt mesh.mTangents i = .ok t ∧ v.Tangent = ⟨t.x, t.y, t.z⟩) ∧
    (mesh.mTextureCoords0 = none → v.TexCoords = ⟨float.zero, float.zero⟩) ∧
    (∀ tc, mesh.mTextureCoords0 = some tc →
      ∃ c, tc[i]? = some c ∧ v.TexCoords = ⟨c.x, c.y⟩) := by
  unfold buildVertex at h
  cases hn : readAt mesh.mNormals i with
  | error e => simp [hn] at h
  | ok n =>
    cases ht : readAt mesh.mTangents i with
    | error e => simp [hn, ht] at h
    | ok t =>
      cases htc : mesh.mTextureCoords0 with
      | none =>
        simp only [hn, ht, htc, Except.ok.injEq] at h
        subst h
        simp
      | some tc =>
        simp only [hn, ht, htc] at h
        cases hc : readAt (some tc) i with
        | error e => simp [hc] at h
        | ok c =>
          simp only [hc, Except.ok.injEq] at h
          subst h
          have := (readAt_ok_iff (some tc) i c).1 hc
          simp at this
          simp [this]

theorem vertexLoop_total (mesh : aiMesh) (h : vertexArraysReadable mesh = true) :
    ∀ (rest : List aiVector3D) (i : Nat) (acc : List Vertex),
      i + rest.length ≤ mesh.mVertices.length → ∃ vs, vertexLoop mesh rest i acc = .ok vs := by
  intro rest
  induction rest with
  | nil => intro i acc _; exact ⟨acc, rfl⟩
  | cons p rest ih =>
    intro i acc hlen
    simp only [List.length_cons] at hlen
    obtain ⟨v, hv⟩ := buildVertex_total mesh i p h (by omega)
    obtain ⟨vs, hvs⟩ := ih (i + 1) (acc ++ [v]) (by omega)
    exact ⟨vs, by simp [vertexLoop, hv, hvs]⟩

theorem vertexLoop_ok_inv (mesh : aiMesh) :
    ∀ (rest : List aiVector3D) (i : Nat) (acc vs : List Vertex),
      vertexLoop mesh rest i acc = .ok vs →
      ∃ new, vs = acc ++ new ∧ new.length = rest.length ∧
        ∀ k p, rest[k]? = some p → ∃ v, new[k]? = some v ∧ buildVertex mesh (i + k) p = .ok v := by
  intro rest
  induction rest with
  | nil =>
    intro i acc vs h
    simp only [vertexLoop, Except.ok.injEq] at h
    exact ⟨[], by simp [h]⟩
  | cons p rest ih =>
    intro i acc vs h
    cases hv : buildVertex mesh i p with
    | error e => simp [vertexLoop, hv] at h
    | ok v =>
      simp only [vertexLoop, hv] at h
      obtain ⟨new, hvs, hlen, hk⟩ := ih (i + 1) (acc ++ [v]) vs h
      refine ⟨v :: new, by simp [hvs], by simp [hlen], ?_⟩
      intro k q hq
      cases k with
      | zero =>
        simp only [List.getElem?_cons_zero, Option.some.injEq] at hq
        subst hq
        exact ⟨v, by simp, by simpa using hv⟩
      | succ k =>
        simp only [List.getElem?_cons_succ] at hq
        obtain ⟨w, hw, hb⟩ := hk k q hq
        refine ⟨w, by simpa using hw, ?_⟩
        have : i + (k + 1) = i + 1 + k := by omega
        rw [this]; exact hb

/-- The shape of every result of `processMesh`. -/
theorem processMesh_ok_inv (mesh : aiMesh) (scene : aiScene) (self self' : Model) (m : Mesh)
    (h : processMesh mesh scene self = .ok (m, self')) :
    vertexLoop mesh mesh.mVertices 0 [] = .ok m.vertices ∧
    m.indices = (mesh.mFaces.map aiFace.mIndices).flatten ∧
    m.mParent = none ∧
    ∃ material,
      scene.mMaterials[mesh.mMaterialIndex]? = some material ∧
      m.textures = (materialTextures material self).1 ∧
      self' = (materialTextures material self).2 := by
  unfold processMesh at h
  cases hv : vertexLoop mesh mesh.mVertices 0 [] with
  | error e => simp [hv] at h
  | ok vs =>
    simp only [hv] at h
    have hidx : 0 ≤ mesh.mMaterialIndex := Nat.zero_le _
    simp only [hidx, if_true] at h
    cases hm : scene.mMaterials[mesh.mMaterialIndex]? with
    | none => simp [hm] at h
    | some material =>
      simp only [hm, Except.ok.injEq, Prod.mk.injEq] at h
      obtain ⟨h1, h2⟩ := h
      subst h1
      exact ⟨rfl, by simp [Mesh.new, faceLoop_eq], rfl, material, rfl, rfl, h2.symm⟩

/-- The function `processMesh` returns when the arrays it reads are readable. -/
theorem processMesh_total (mesh : aiMesh) (scene : aiScene) (self : Model)
    (hv : vertexArraysReadable mesh = true) (hm : materialReadable mesh scene = true) :
    ∃ m self', processMesh mesh scene self = .ok (m, self') := by
  obtain ⟨vs, hvs⟩ := vertexLoop_total mesh hv mesh.mVertices 0 [] (by simp)
  unfold processMesh
  have hidx : 0 ≤ mesh.mMaterialIndex := Nat.zero_le _
  simp only [hvs, hidx, if_true]
  simp only [materialReadable, decide_eq_true_eq] at hm
  simp only [List.getElem?_eq_getElem hm]
  exact ⟨_, _, rfl⟩

/-- Whenever the material index is past the materials of the scene and the
per-vertex arrays can be read, `processMesh` reads `mMaterials` outside the
array and returns no mesh. -/
theorem processMesh_unresolved_material (mesh : aiMesh) (scene : aiScene) (self : Model)
    (hv : vertexArraysReadable mesh = true)
    (hm : scene.mMaterials.length ≤ mesh.mMaterialIndex) :
    processMesh mesh scene self = .error .outOfBounds := by
  obtain ⟨vs, hvs⟩ := vertexLoop_total mesh hv mesh.mVertices 0 [] (by simp)
  unfold processMesh
  have hidx : 0 ≤ mesh.mMaterialIndex := Nat.zero_le _
  simp only [hvs, hidx, if_true]
  simp only [List.getElem?_eq_none hm]

/-! ## Lemmas on `loadMaterialTextures` -/

theorem scanLoaded_eq_none (cp : String) (l : List Texture) :
    scanLoaded cp l = none ↔ cp ∉ l.map Texture.getPath := by
  induction l with
  | nil => simp [scanLoaded]
  | cons t ts ih =>
    by_cases h : t.getPath = cp
    · simp [scanLoaded, h]
    · simp only [scanLoaded, h, if_false, ih, List.map_cons, List.mem_cons, not_or]
      exact ⟨fun hh => ⟨fun e => h e.symm, hh⟩, fun hh => hh.2⟩

theorem scanLoaded_eq_some (cp : String) (l : List Texture) (t : Texture)
    (h : scanLoaded cp l = some t) : t ∈ l ∧ t.getPath = cp := by
  induction l with
  | nil => simp [scanLoaded] at h
  | cons u us ih =>
    by_cases hu : u.getPath = cp
    · simp only [scanLoaded, hu, if_true, Option.some.injEq] at h
      subst h
      exact ⟨by simp, hu⟩
    · simp only [scanLoaded, hu, if_false] at h
      exact ⟨by simp [(ih h).1], (ih h).2⟩

/-- The effect of the outer loop of `loadMaterialTextures` on the local
`textures` and on the model, for the declared paths `strs`. -/
theorem loadMaterialTextures_loop (typeName : String) :
    ∀ (strs : List String) (acc : List Texture) (self : Model),
      ∃ (out new : List Texture),
        strs.foldl (loadMaterialTexturesStep typeName) (acc, self) =
          (acc ++ out, { self with mTextureLoaded := self.mTextureLoaded ++ new }) ∧
        out.map Texture.getPath = strs.map (fun s => self.directory ++ "/" ++ s) ∧
        (∀ t ∈ out, t ∈ self.mTextureLoaded ++ new) ∧
        (∀ t ∈ new, t.getPath ∉ self.mTextureLoaded.map Texture.getPath ∧
          t.typeName = typeName ∧ t ∈ out) ∧
        (new.map Texture.getPath).Nodup := by
  intro strs
  induction strs with
  | nil =>
    intro acc self
    exact ⟨[], [], by simp, by simp, by simp, by simp, by simp⟩
  | cons s strs ih =>
    intro acc self
    rw [List.foldl_cons]
    cases hscan : scanLoaded (self.directory ++ "/" ++ s) self.mTextureLoaded with
    | some t =>
      obtain ⟨ht1, ht2⟩ := scanLoaded_eq_some _ _ _ hscan
      obtain ⟨out, new, heq, hpath, hout, hnew, hnd⟩ := ih (acc ++ [t]) self
      refine ⟨t :: out, new, ?_, ?_, ?_, ?_, hnd⟩
      · simp only [loadMaterialTexturesStep, hscan, heq]
        simp
      · simp [hpath, ht2]
      · intro u hu
        rcases List.mem_cons.1 hu with rfl | hu
        · exact List.mem_append_left _ ht1
        · exact hout u hu
      · intro u hu
        exact ⟨(hnew u hu).1, (hnew u hu).2.1, List.mem_cons_of_mem _ (hnew u hu).2.2⟩
    | none =>
      have hfresh := (scanLoaded_eq_none _ _).1 hscan
      obtain ⟨out, new, heq, hpath, hout, hnew, hnd⟩ :=
        ih (acc ++ [⟨self.directory ++ "/" ++ s, typeName⟩])
          { self with mTextureLoaded :=
              self.mTextureLoaded ++ [⟨self.directory ++ "/" ++ s, typeName⟩] }
      refine ⟨⟨self.directory ++ "/" ++ s, typeName⟩ :: out,
        ⟨self.directory ++ "/" ++ s, typeName⟩ :: new, ?_, ?_, ?_, ?_, ?_⟩
      · simp only [loadMaterialTexturesStep, hscan, heq]
        simp
      · simpa [Texture.getPath] using hpath
      · intro u hu
        rcases List.mem_cons.1 hu with rfl | hu
        · simp
        · have := hout u hu
          simpa using this
      · intro u hu
        rcases List.mem_cons.1 hu with rfl | hu
        · exact ⟨hfresh, rfl, by simp⟩
        · obtain ⟨h1, h2, h3⟩ := hnew u hu
          refine ⟨?_, h2, List.mem_cons_of_mem _ h3⟩
          intro hmem
          apply h1
          simp only [List.map_append, List.mem_append]
          exact Or.inl hmem
      · rw [List.map_cons, List.nodup_cons]
        refine ⟨?_, hnd⟩
        intro hmem
        obtain ⟨u, hu, hup⟩ := List.mem_map.1 hmem
        apply (hnew u hu).1
        simp only [List.map_append, List.mem_append]
        right
        simpa [Texture.getPath] using hup

/-- The effect of one call of `loadMaterialTextures`. -/
theorem loadMaterialTextures_spec (mat : aiMaterial) (type : aiTextureType) (typeName : String)
    (self : Model) :
    ∃ (new : List Texture),
      (loadMaterialTextures mat type typeName self).2 =
        { self with mTextureLoaded := self.mTextureLoaded ++ new } ∧
      (loadMaterialTextures mat type typeName self).1.map Texture.getPath =
        (mat.textures type).map (fun s => self.directory ++ "/" ++ s) ∧
      (∀ t ∈ (loadMaterialTextures mat type typeName self).1, t ∈ self.mTextureLoaded ++ new) ∧
      (∀ t ∈ new, t.getPath ∉ self.mTextureLoaded.map Texture.getPath ∧
        t.typeName = typeName ∧ t ∈ (loadMaterialTextures mat type typeName self).1) ∧
      (new.map Texture.getPath).Nodup := by
  obtain ⟨out, new, heq, hpath, hout, hnew, hnd⟩ :=
    loadMaterialTextures_loop typeName (mat.textures type) [] self
  unfold loadMaterialTextures
  rw [heq]
  exact ⟨new, rfl, by simpa using hpath, by simpa using hout, by simpa using hnew, hnd⟩

/-- Distinctness of the recorded paths survives the appending of entries with
fresh, pairwise distinct paths. -/
theorem nodup_paths_append (old new : List Texture)
    (hold : (old.map Texture.getPath).Nodup)
    (hnew : (new.map Texture.getPath).Nodup)
    (hfresh : ∀ t ∈ new, t.getPath ∉ old.map Texture.getPath) :
    ((old ++ new).map Texture.getPath).Nodup := by
  rw [List.map_append, List.nodup_append]
  refine ⟨hold, hnew, ?_⟩
  intro p hp1 hp2
  obtain ⟨t, ht, rfl⟩ := List.mem_map.1 hp2
  exact hfresh t ht hp1

theorem loadMaterialTextures_nodup (mat : aiMaterial) (type : aiTextureType) (typeName : String)
    (self : Model) (h : (self.mTextureLoaded.map Texture.getPath).Nodup) :
    ((loadMaterialTextures mat type typeName self).2.mTextureLoaded.map Texture.getPath).Nodup := by
  obtain ⟨new, heq, _, _, hnew, hnd⟩ := loadMaterialTextures_spec mat type typeName self
  rw [heq]
  exact nodup_paths_append _ _ h hnd (fun t ht => (hnew t ht).1)

theorem loadMaterialTexturesSeq_nodup :
    ∀ (calls : List (aiMaterial × aiTextureType × String)) (self : Model),
      (self.mTextureLoaded.map Texture.getPath).Nodup →
      ((loadMaterialTexturesSeq calls self).2.mTextureLoaded.map Texture.getPath).Nodup := by
  intro calls
  induction calls with
  | nil => intro self h; simpa [loadMaterialTexturesSeq] using h
  | cons c calls ih =>
    intro self h
    obtain ⟨mat, type, typeName⟩ := c
    simp only [loadMaterialTexturesSeq]
    exact ih _ (loadMaterialTextures_nodup mat type typeName self h)

/-! ## Lemmas on `processNode` -/

theorem materialTextures_spec (material : aiMaterial) (self : Model) :
    ∃ new, (materialTextures material self).2 =
        { self with mTextureLoaded := self.mTextureLoaded ++ new } ∧
      ((self.mTextureLoaded.map Texture.getPath).Nodup →
        ((self.mTextureLoaded ++ new).map Texture.getPath).Nodup) := by
  obtain ⟨n1, h1, -, -, f1, d1⟩ :=
    loadMaterialTextures_spec material .DIFFUSE "texture_diffuse" self
  obtain ⟨n2, h2, -, -, f2, d2⟩ :=
    loadMaterialTextures_spec material .SPECULAR "texture_specular"
      (loadMaterialTextures material .DIFFUSE "texture_diffuse" self).2
  obtain ⟨n3, h3, -, -, f3, d3⟩ :=
    loadMaterialTextures_spec material .HEIGHT "texture_normal"
      (loadMaterialTextures material .SPECULAR "texture_specular"
        (loadMaterialTextures material .DIFFUSE "texture_diffuse" self).2).2
  refine ⟨n1 ++ n2 ++ n3, ?_, ?_⟩
  · simp only [materialTextures]
    rw [h3, h2, h1]
    simp
  · intro hnd
    have e1 := nodup_paths_append _ _ hnd d1 (fun t ht => (f1 t ht).1)
    rw [h1] at f2
    have e2 := nodup_paths_append _ _ e1 d2 (fun t ht => (f2 t ht).1)
    rw [h2, h1] at f3
    have e3 := nodup_paths_append _ _ e2 d3 (fun t ht => (f3 t ht).1)
    simpa [List.append_assoc] using e3

/-- The function `processMesh` changes nothing of the model but `mTextureLoaded`,
which it extends. -/
theorem processMesh_frame (mesh : aiMesh) (scene : aiScene) (self self' : Model) (m : Mesh)
    (h : processMesh mesh scene self = .ok (m, self')) :
    ∃ new, self' = { self with mTextureLoaded := self.mTextureLoaded ++ new } := by
  obtain ⟨-, -, -, material, -, -, hs⟩ := processMesh_ok_inv mesh scene self self' m h
  obtain ⟨new, hnew, -⟩ := materialTextures_spec material self
  exact ⟨new, by rw [hs, hnew]⟩

theorem meshLoop_append (scene : aiScene) :
    ∀ (xs ys : List Nat) (self : Model),
      meshLoop scene (xs ++ ys) self =
        match meshLoop scene xs self with
        | .error e => .error e
        | .ok self => meshLoop scene ys self := by
  intro xs
  induction xs with
  | nil => intro ys self; simp [meshLoop]
  | cons x xs ih =>
    intro ys self
    rw [List.cons_append, meshLoop, meshLoop]
    cases hm : scene.mMeshes[x]? with
    | none => rfl
    | some mesh =>
      dsimp only
      cases hp : processMesh mesh scene self with
      | error e => rfl
      | ok r => exact ih ys _

mutual
/-- Processing a tree is one pass of the mesh loop over its references in
depth-first pre-order. -/
theorem processNode_eq_meshLoop (scene : aiScene) :
    ∀ (node : aiNode) (self : Model),
      processNode scene node self = meshLoop scene (meshRefs node) self
  | .mk ms cs, self => by
    rw [processNode, meshRefs, meshLoop_append]
    cases meshLoop scene ms self with
    | error e => rfl
    | ok s => exact processChildren_eq_meshLoop scene cs s
/-- Processing a sequence of trees is one pass of the mesh loop. -/
theorem processChildren_eq_meshLoop (scene : aiScene) :
    ∀ (cs : List aiNode) (self : Model),
      processChildren scene cs self = meshLoop scene (meshRefsList cs) self
  | [], self => by simp [processChildren, meshRefsList, meshLoop]
  | c :: cs, self => by
    rw [processChildren, meshRefsList, meshLoop_append,
      processNode_eq_meshLoop scene c self]
    cases meshLoop scene (meshRefs c) self with
    | error e => rfl
    | ok s => exact processChildren_eq_meshLoop scene cs s
end

theorem meshLoop_total (scene : aiScene) :
    ∀ (refs : List Nat) (self : Model), refsReadable scene refs = true →
      ∃ self', meshLoop scene refs self = .ok self' := by
  intro refs
  induction refs with
  | nil => intro self _; exact ⟨self, rfl⟩
  | cons idx refs ih =>
    intro self h
    simp only [refsReadable, List.all_cons, Bool.and_eq_true] at h
    obtain ⟨h1, h2⟩ := h
    cases hm : scene.mMeshes[idx]? with
    | none => simp [hm] at h1
    | some mesh =>
      simp only [hm, Bool.and_eq_true] at h1
      obtain ⟨m, s, hp⟩ := processMesh_total mesh scene self h1.1 h1.2
      obtain ⟨s', hs'⟩ := ih { s with mChildren := s.mChildren ++ [m.setParent s.addr] }
        (by simpa [refsReadable] using h2)
      exact ⟨s', by simp only [meshLoop, hm, hp, hs']⟩

theorem meshLoop_ok_inv (scene : aiScene) :
    ∀ (refs : List Nat) (self self' : Model), meshLoop scene refs self = .ok self' →
      self'.addr = self.addr ∧ self'.directory = self.directory ∧
      ∃ added, self'.mChildren = self.mChildren ++ added ∧ added.length = refs.length ∧
        ∀ (i idx : Nat), refs[i]? = some idx →
          ∃ mesh c st st', scene.mMeshes[idx]? = some mesh ∧
            processMesh mesh scene st = .ok (c, st') ∧
            added[i]? = some (c.setParent self.addr) := by
  intro refs
  induction refs with
  | nil =>
    intro self self' h
    simp only [meshLoop, Except.ok.injEq] at h
    subst h
    exact ⟨rfl, rfl, [], by simp, rfl, by simp⟩
  | cons idx refs ih =>
    intro self self' h
    cases hm : scene.mMeshes[idx]? with
    | none => simp [meshLoop, hm] at h
    | some mesh =>
      cases hp : processMesh mesh scene self with
      | error e => simp [meshLoop, hm, hp] at h
      | ok r =>
        obtain ⟨c, s⟩ := r
        simp only [meshLoop, hm, hp] at h
        obtain ⟨new, hs⟩ := processMesh_frame mesh scene self s c hp
        obtain ⟨ha, hd, added, hch, hlen, hall⟩ := ih _ _ h
        have hsa : s.addr = self.addr := by rw [hs]
        have hsd : s.directory = self.directory := by rw [hs]
        have hsc : s.mChildren = self.mChildren := by rw [hs]
        refine ⟨by simpa [hsa] using ha, by simpa [hsd] using hd,
          c.setParent self.addr :: added, ?_, by simp [hlen], ?_⟩
        · simpa [hsa, hsc] using hch
        · intro i j hij
          cases i with
          | zero =>
            simp only [List.getElem?_cons_zero, Option.some.injEq] at hij
            subst hij
            exact ⟨mesh, c, self, s, hm, hp, by simp⟩
          | succ i =>
            simp only [List.getElem?_cons_succ] at hij
            obtain ⟨mesh', c', st, st', h1, h2, h3⟩ := hall i j hij
            exact ⟨mesh', c', st, st', h1, h2, by simpa [hsa] using h3⟩

/-! ## Lemmas on the cache and the constructor -/

theorem packLoop_eq {D : Type} (pack : Mesh → D) (children : List Mesh) (acc : List D) :
    children.foldl (fun data i => data ++ [pack i]) acc = acc ++ children.map pack := by
  induction children generalizing acc with
  | nil => simp
  | cons c cs ih => rw [List.foldl_cons, ih]; simp

theorem unpackLoop_eq {D : Type} (unpack : D → Mesh) (data : List D) (self : Model) :
    data.foldl
        (fun (self : Model) i =>
          { self with mChildren := self.mChildren ++ [(unpack i).setParent self.addr] })
        self =
      { self with
        mChildren := self.mChildren ++ data.map (fun i => (unpack i).setParent self.addr) } := by
  induction data generalizing self with
  | nil => simp
  | cons d ds ih => rw [List.foldl_cons, ih]; simp

theorem isModelLoaded_eq_true {D : Type} (c : ModelManager D) (path : String) :
    c.isModelLoaded path = true ↔ ∃ data, c.entries.lookup path = some data := by
  unfold ModelManager.isModelLoaded
  cases c.entries.lookup path <;> simp

theorem isModelLoaded_eq_false {D : Type} (c : ModelManager D) (path : String) :
    c.isModelLoaded path = false ↔ c.entries.lookup path = none := by
  unfold ModelManager.isModelLoaded
  cases c.entries.lookup path <;> simp

/-- An entry appended to the registry does not shadow an entry that is there. -/
theorem lookup_append_of_some {D : Type} (es new : List (String × List D)) (q : String)
    (data : List D) (h : es.lookup q = some data) : (es ++ new).lookup q = some data := by
  rw [List.lookup_append, h]; rfl

/-- An entry appended under a path that has none is the one found. -/
theorem lookup_append_of_none {D : Type} (es : List (String × List D)) (path : String)
    (data : List D) (h : es.lookup path = none) :
    (es ++ [(path, data)]).lookup path = some data := by
  rw [List.lookup_append, h]
  simp [List.lookup_cons]

/-- What `loadModel` returns: on a failed import the model is untouched and the
error is reported; otherwise the model that `processNode` built. -/
theorem loadModel_eq {D : Type} (env : Collaborators D) (path : String) (self : Model)
    (w : World D) :
    loadModel env path self w =
      match usableRoot (env.ReadFile path) with
      | none => .ok (self, ⟨w.manager, w.log ++ [.readFile path] ++ [.errorReport]⟩)
      | some (scene, root) =>
        match processNode scene root { self with directory := directoryOf path } with
        | .error e => .error e
        | .ok self => .ok (self, ⟨w.manager, w.log ++ [.readFile path]⟩) := by
  unfold loadModel
  cases usableRoot (env.ReadFile path) with
  | none => rfl
  | some r => rfl

theorem importFails_iff {D : Type} (env : Collaborators D) (path : String) :
    importFails env path ↔ usableRoot (env.ReadFile path) = none := by
  unfold importFails usableRoot
  cases env.ReadFile path with
  | none => simp
  | some scene =>
    by_cases hf : scene.mFlags &&& AI_SCENE_FLAGS_INCOMPLETE = 0
    · cases hr : scene.mRootNode <;> simp [hf, hr]
    · simp [hf]

theorem parseCount_append (a b : List Event) :
    parseCount (a ++ b) = parseCount a + parseCount b := by
  simp [parseCount]

/-- The constructor on a cache hit. -/
theorem Model.new_hit {D : Type} (env : Collaborators D) (addr : Nat) (path : String)
    (w : World D) (data : List D) (h : w.manager.entries.lookup path = some data) :
    Model.new env addr path w =
      .ok ({ Model.init addr with
              mChildren := data.map (fun i => (env.meshOfShared i).setParent addr) },
           ⟨w.manager, w.log ++ [.getLoadedModel path]⟩) := by
  have hl : w.manager.isModelLoaded path = true := (isModelLoaded_eq_true _ _).2 ⟨data, h⟩
  unfold Model.new
  simp only [hl, if_true, loadFromShared, ModelManager.getLoadedModel, h, unpackLoop_eq]
  rfl

/-- The constructor on a cache miss. -/
theorem Model.new_miss {D : Type} (env : Collaborators D) (addr : Nat) (path : String)
    (w : World D) (h : w.manager.entries.lookup path = none) :
    Model.new env addr path w =
      match loadModel env path (Model.init addr) w with
      | .error e => .error e
      | .ok (self, w') =>
        .ok (self,
          ⟨⟨w'.manager.entries ++ [(path, self.mChildren.map env.packSharedData)]⟩,
            w'.log ++ [.addModelData path]⟩) := by
  have hl : w.manager.isModelLoaded path = false := (isModelLoaded_eq_false _ _).2 h
  unfold Model.new
  simp only [hl, Bool.false_eq_true, if_false]
  rw [loadModel_eq]
  cases usableRoot (env.ReadFile path) with
  | none =>
    simp only [saveToShared, ModelManager.addModelData, hl, Bool.false_eq_true, if_false,
      packLoop_eq, List.nil_append]
  | some r =>
    obtain ⟨scene, root⟩ := r
    dsimp only
    cases processNode scene root { Model.init addr with directory := directoryOf path } with
    | error e => rfl
    | ok self =>
      simp only [saveToShared, ModelManager.addModelData, hl, Bool.false_eq_true, if_false,
        packLoop_eq, List.nil_append]

/-- What a construction that returns leaves behind: the path is cached, what
was cached stays cached unchanged, and the importer was invoked only on a
miss. -/
theorem Model.new_ok_inv {D : Type} (env : Collaborators D) (addr : Nat) (path : String)
    (w w' : World D) (m : Model) (h : Model.new env addr path w = .ok (m, w')) :
    w'.manager.isModelLoaded path = true ∧
    (∀ q data, w.manager.entries.lookup q = some data →
      w'.manager.entries.lookup q = some data) ∧
    (w.manager.isModelLoaded path = true → parseCount w'.log = parseCount w.log) ∧
    (w.manager.isModelLoaded path = false →
      w'.manager.entries.lookup path = some (m.mChildren.map env.packSharedData) ∧
      parseCount w'.log = parseCount w.log + 1) := by
  cases hl : w.manager.entries.lookup path with
  | some data =>
    rw [Model.new_hit env addr path w data hl] at h
    simp only [Except.ok.injEq, Prod.mk.injEq] at h
    obtain ⟨-, rfl⟩ := h
    have hld := (isModelLoaded_eq_true w.manager path).2 ⟨data, hl⟩
    refine ⟨hld, fun q d hq => hq, fun _ => by simp [parseCount], ?_⟩
    intro hf
    rw [hld] at hf
    exact absurd hf (by simp)
  | none =>
    rw [Model.new_miss env addr path w hl, loadModel_eq] at h
    have hnl := (isModelLoaded_eq_false w.manager path).2 hl
    cases hu : usableRoot (env.ReadFile path) with
    | none =>
      simp only [hu, Except.ok.injEq, Prod.mk.injEq] at h
      obtain ⟨rfl, rfl⟩ := h
      refine ⟨?_, ?_, ?_, ?_⟩
      · exact (isModelLoaded_eq_true _ _).2 ⟨_, lookup_append_of_none _ _ _ hl⟩
      · intro q d hq; exact lookup_append_of_some _ _ _ _ hq
      · intro hh; rw [hnl] at hh; exact absurd hh (by simp)
      · intro _
        exact ⟨lookup_append_of_none _ _ _ hl, by simp [parseCount]⟩
    | some r =>
      obtain ⟨scene, root⟩ := r
      simp only [hu] at h
      cases hp : processNode scene root { Model.init addr with directory := directoryOf path } with
      | error e => simp [hp] at h
      | ok self =>
        simp only [hp, Except.ok.injEq, Prod.mk.injEq] at h
        obtain ⟨rfl, rfl⟩ := h
        refine ⟨?_, ?_, ?_, ?_⟩
        · exact (isModelLoaded_eq_true _ _).2 ⟨_, lookup_append_of_none _ _ _ hl⟩
        · intro q d hq; exact lookup_append_of_some _ _ _ _ hq
        · intro hh; rw [hnl] at hh; exact absurd hh (by simp)
        · intro _
          exact ⟨lookup_append_of_none _ _ _ hl, by simp [parseCount]⟩

/-- After a sequence of constructions that all returned, every path of the
sequence is cached. -/
theorem loadAll_loaded {D : Type} (env : Collaborators D) :
    ∀ (reqs : List (Nat × String)) (w w' : World D) (ms : List Model),
      loadAll env reqs w = .ok (ms, w') →
      (∀ q, w.manager.isModelLoaded q = true → w'.manager.isModelLoaded q = true) ∧
      ∀ p ∈ reqs.map Prod.snd, w'.manager.isModelLoaded p = true := by
  intro reqs
  induction reqs with
  | nil =>
    intro w w' ms h
    simp only [loadAll, Except.ok.injEq, Prod.mk.injEq] at h
    obtain ⟨-, rfl⟩ := h
    exact ⟨fun q hq => hq, by simp⟩
  | cons r reqs ih =>
    intro w w' ms h
    obtain ⟨addr, path⟩ := r
    cases h1 : Model.new env addr path w with
    | error e => simp [loadAll, h1] at h
    | ok r1 =>
      obtain ⟨m, w1⟩ := r1
      cases h2 : loadAll env reqs w1 with
      | error e => simp [loadAll, h1, h2] at h
      | ok r2 =>
        obtain ⟨ms2, w2⟩ := r2
        simp only [loadAll, h1, h2, Except.ok.injEq, Prod.mk.injEq] at h
        obtain ⟨-, rfl⟩ := h
        obtain ⟨hp, hmono, -, -⟩ := Model.new_ok_inv env addr path w w1 m h1
        obtain ⟨ih1, ih2⟩ := ih w1 w2 ms2 h2
        have hmono' : ∀ q, w.manager.isModelLoaded q = true →
            w1.manager.isModelLoaded q = true := by
          intro q hq
          obtain ⟨d, hd⟩ := (isModelLoaded_eq_true _ _).1 hq
          exact (isModelLoaded_eq_true _ _).2 ⟨d, hmono q d hd⟩
        refine ⟨fun q hq => ih1 q (hmono' q hq), ?_⟩
        intro p hp'
        simp only [List.map_cons, List.mem_cons] at hp'
        rcases hp' with rfl | hp'
        · exact ih1 _ hp
        · exact ih2 p hp'

/-! ## Lemmas on the directory of a path -/

theorem find_last_of_eq_none (s : List Char) (c : Char) :
    find_last_of s c = none ↔ c ∉ s := by
  induction s with
  | nil => simp [find_last_of]
  | cons x xs ih =>
    cases h : find_last_of xs c with
    | some i =>
      have : ¬ c ∉ xs := fun hn => by rw [ih.2 hn] at h; exact absurd h (by simp)
      simp only [find_last_of, h, List.mem_cons, not_or]
      constructor
      · intro hh; exact absurd hh (by simp)
      · intro hh; exact absurd hh.2 this
    | none =>
      have hc : c ∉ xs := ih.1 h
      by_cases hx : x = c
      · simp [find_last_of, h, hx]
      · simp only [find_last_of, h, hx, if_false, List.mem_cons, not_or, true_iff]
        exact ⟨fun e => hx e.symm, hc⟩

theorem find_last_of_eq_some (s : List Char) (c : Char) (i : Nat)
    (h : find_last_of s c = some i) :
    s = s.take i ++ c :: s.drop (i + 1) ∧ c ∉ s.drop (i + 1) := by
  induction s generalizing i with
  | nil => simp [find_last_of] at h
  | cons x xs ih =>
    cases hxs : find_last_of xs c with
    | some j =>
      simp only [find_last_of, hxs, Option.some.injEq] at h
      subst h
      obtain ⟨h1, h2⟩ := ih j hxs
      refine ⟨?_, by simpa using h2⟩
      simp only [List.take_succ_cons, List.drop_succ_cons, List.cons_append, List.cons.injEq,
        true_and]
      exact h1
    | none =>
      by_cases hx : x = c
      · simp only [find_last_of, hxs, hx, if_true, Option.some.injEq] at h
        subst h
        subst hx
        exact ⟨by simp, by simpa using (find_last_of_eq_none xs x).1 hxs⟩
      · simp [find_last_of, hxs, hx] at h

/-- For a path with a separator, the directory is what precedes the last one. -/
theorem directoryOf_of_separator (path : String) (h : '/' ∈ path.data) :
    ∃ rest : String, path = directoryOf path ++ "/" ++ rest ∧ '/' ∉ rest.data := by
  cases hf : find_last_of path.data '/' with
  | none => exact absurd h ((find_last_of_eq_none _ _).1 hf)
  | some i =>
    obtain ⟨h1, h2⟩ := find_last_of_eq_some _ _ _ hf
    refine ⟨String.mk (path.data.drop (i + 1)), ?_, h2⟩
    apply String.ext
    simp only [directoryOf, hf, substr, List.drop_zero, String.data_append]
    simpa using h1

/-- For a path without separator, `find_last_of` yields `npos` and the
directory is the whole path. -/
theorem directoryOf_of_no_separator (path : String) (h : '/' ∉ path.data) :
    directoryOf path = path := by
  have hf := (find_last_of_eq_none _ _).2 h
  simp [directoryOf, hf, substr]

/-- On a miss with a usable scene, the directory of the model that the
constructor returns is the one computed from the path by `loadModel`. -/
theorem Model.new_directory {D : Type} (env : Collaborators D) (addr : Nat) (path : String)
    (w w' : World D) (m : Model) (scene : aiScene) (root : aiNode)
    (hmiss : w.manager.isModelLoaded path = false)
    (hu : usableRoot (env.ReadFile path) = some (scene, root))
    (h : Model.new env addr path w = .ok (m, w')) : m.directory = directoryOf path := by
  have hl := (isModelLoaded_eq_false _ _).1 hmiss
  rw [Model.new_miss env addr path w hl, loadModel_eq, hu] at h
  dsimp only at h
  cases hp : processNode scene root { Model.init addr with directory := directoryOf path } with
  | error e => simp [hp] at h
  | ok self =>
    simp only [hp, Except.ok.injEq, Prod.mk.injEq] at h
    obtain ⟨rfl, -⟩ := h
    rw [processNode_eq_meshLoop] at hp
    exact (meshLoop_ok_inv scene _ _ _ hp).2.1

/-! ## C1: a failed import -/

/-- C1, counterexample.  The path `missing.obj` is not cached and the importer
returns no scene for it; the constructor nevertheless returns normally, and
afterwards `isModelLoaded` is true for the path: `saveToShared` has run on the
childless model. -/
theorem C1_failed_import_is_cached :
    Example.world0.manager.isModelLoaded "missing.obj" = false ∧
    importFails Example.importer "missing.obj" ∧
    ∃ m w, Model.new Example.importer 1 "missing.obj" Example.world0 = .ok (m, w) ∧
      m.mChildren = [] ∧ w.manager.isModelLoaded "missing.obj" = true :=
  ⟨rfl, (importFails_iff _ _).2 rfl, _, _, rfl, rfl, rfl⟩

/-- C1, amended.  For every path that is not in the shared cache and for which
the import collaborator reports failure (null scene, incomplete flag set, or no
root node), the constructor invokes the importer once, reports the error and
returns normally with a model that has no children; no error value is
raised. -/
theorem C1_failed_import_returns_childless_model {D : Type} (env : Collaborators D)
    (addr : Nat) (path : String) (w : World D)
    (hmiss : w.manager.isModelLoaded path = false) (hfail : importFails env path) :
    ∃ w', Model.new env addr path w = .ok (Model.init addr, w') ∧
      (Model.init addr).mChildren = [] ∧
      Event.errorReport ∈ w'.log ∧
      parseCount w'.log = parseCount w.log + 1 := by
  have hl := (isModelLoaded_eq_false _ _).1 hmiss
  have hu := (importFails_iff env path).1 hfail
  rw [Model.new_miss env addr path w hl, loadModel_eq, hu]
  exact ⟨_, rfl, rfl, by simp, by simp [parseCount]⟩

/-- C1, witness: the amended statement at the path `missing.obj`. -/
theorem C1_failed_import_returns_childless_model_witness :
    ∃ w', Model.new Example.importer 1 "missing.obj" Example.world0 = .ok (Model.init 1, w') ∧
      (Model.init 1).mChildren = [] ∧
      Event.errorReport ∈ w'.log ∧
      parseCount w'.log = parseCount Example.world0.log + 1 :=
  C1_failed_import_returns_childless_model Example.importer 1 "missing.obj" Example.world0
    rfl ((importFails_iff _ _).2 rfl)

/-! ## C2: a second load rebuilds the same content -/

/-- C2.  For a path that is not cached: when the parse succeeds and the arrays
of the scene can be read, the first load returns; and whenever the first load
returns, a second load of the same path returns too, with a child sequence of
the same length whose meshes have, position by position, the vertex, index and
texture content of the first (given that a mesh built from packed data has the
content of the mesh that was packed). -/
theorem C2_second_load_same_content {D : Type} (env : Collaborators D)
    (hround : ∀ m, (env.meshOfShared (env.packSharedData m)).sameContent m)
    (a1 a2 : Nat) (path : String) (w : World D)
    (hmiss : w.manager.isModelLoaded path = false) :
    (∀ scene root, usableRoot (env.ReadFile path) = some (scene, root) →
      refsReadable scene (meshRefs root) = true →
      ∃ m1 w1, Model.new env a1 path w = .ok (m1, w1)) ∧
    (∀ m1 w1, Model.new env a1 path w = .ok (m1, w1) →
      ∃ m2 w2, Model.new env a2 path w1 = .ok (m2, w2) ∧
        m2.mChildren.length = m1.mChildren.length ∧
        ∀ (i : Nat) (h1 : i < m1.mChildren.length) (h2 : i < m2.mChildren.length),
          (m2.mChildren[i]).sameContent (m1.mChildren[i])) := by
  have hl := (isModelLoaded_eq_false _ _).1 hmiss
  constructor
  · intro scene root hu hr
    rw [Model.new_miss env a1 path w hl, loadModel_eq, hu]
    obtain ⟨s, hs⟩ := meshLoop_total scene (meshRefs root)
      { Model.init a1 with directory := directoryOf path } hr
    simp only [processNode_eq_meshLoop, hs]
    exact ⟨_, _, rfl⟩
  · intro m1 w1 h1
    obtain ⟨-, -, -, hstored⟩ := Model.new_ok_inv env a1 path w w1 m1 h1
    obtain ⟨hdata, -⟩ := hstored hmiss
    rw [Model.new_hit env a2 path w1 _ hdata]
    refine ⟨_, _, rfl, by simp [Model.init], ?_⟩
    intro i h1 h2
    simp only [Model.init, List.getElem_map]
    obtain ⟨e1, e2, e3⟩ := hround (m1.mChildren[i])
    exact ⟨e1, e2, e3⟩

/-- C2, witness: the sample importer packs the content of a mesh and rebuilds
a mesh from it; `assets/crate.obj` is loaded twice from the empty cache. -/
theorem C2_second_load_same_content_witness :
    ∃ m1 w1 m2 w2,
      Model.new Example.importer 1 "assets/crate.obj" Example.world0 = .ok (m1, w1) ∧
      Model.new Example.importer 2 "assets/crate.obj" w1 = .ok (m2, w2) ∧
      m2.mChildren.length = m1.mChildren.length ∧
      ∀ (i : Nat) (h1 : i < m1.mChildren.length) (h2 : i < m2.mChildren.length),
        (m2.mChildren[i]).sameContent (m1.mChildren[i]) := by
  have h := C2_second_load_same_content Example.importer (fun _ => ⟨rfl, rfl, rfl⟩) 1 2
    "assets/crate.obj" Example.world0 rfl
  obtain ⟨m1, w1, h1⟩ := h.1 Example.scene Example.tree rfl rfl
  obtain ⟨m2, w2, h2, h3, h4⟩ := h.2 m1 w1 h1
  exact ⟨m1, w1, m2, w2, h1, h2, h3, h4⟩

/-! ## C3: a cache hit does not parse -/

/-- C3.  When `isModelLoaded(path)` is true the constructor returns through
`loadFromShared` alone: the only call it logs is `getLoadedModel`, so the
number of invocations of the importer is unchanged.  Hence after any sequence
of loads that returned, a further load of a path of the sequence adds nothing
to the parse count. -/
theorem C3_cache_hit_does_not_parse {D : Type} (env : Collaborators D) :
    (∀ (addr : Nat) (path : String) (w : World D), w.manager.isModelLoaded path = true →
      ∃ m w', Model.new env addr path w = .ok (m, w') ∧
        w'.log = w.log ++ [Event.getLoadedModel path] ∧
        parseCount w'.log = parseCount w.log) ∧
    (∀ (reqs : List (Nat × String)) (w w1 : World D) (ms : List Model) (addr : Nat)
        (path : String),
      loadAll env reqs w = .ok (ms, w1) → path ∈ reqs.map Prod.snd →
      ∃ m w2, Model.new env addr path w1 = .ok (m, w2) ∧
        parseCount w2.log = parseCount w1.log) := by
  have hit : ∀ (addr : Nat) (path : String) (w : World D),
      w.manager.isModelLoaded path = true →
      ∃ m w', Model.new env addr path w = .ok (m, w') ∧
        w'.log = w.log ++ [Event.getLoadedModel path] ∧
        parseCount w'.log = parseCount w.log := by
    intro addr path w h
    obtain ⟨data, hd⟩ := (isModelLoaded_eq_true _ _).1 h
    rw [Model.new_hit env addr path w data hd]
    exact ⟨_, _, rfl, rfl, by simp [parseCount]⟩
  refine ⟨hit, ?_⟩
  intro reqs w w1 ms addr path hall hp
  obtain ⟨m, w2, h1, -, h3⟩ := hit addr path w1 ((loadAll_loaded env reqs w w1 ms hall).2 path hp)
  exact ⟨m, w2, h1, h3⟩

/-- C3, witness: `assets/crate.obj` is loaded once from the empty cache, which
parses once; the second load leaves the parse count at one. -/
theorem C3_cache_hit_does_not_parse_witness :
    ∃ ms w1 m w2,
      loadAll Example.importer [(1, "assets/crate.obj")] Example.world0 = .ok (ms, w1) ∧
      parseCount w1.log = 1 ∧
      Model.new Example.importer 2 "assets/crate.obj" w1 = .ok (m, w2) ∧
      parseCount w2.log = parseCount w1.log := by
  have hall : ∃ ms w1,
      loadAll Example.importer [(1, "assets/crate.obj")] Example.world0 = .ok (ms, w1) ∧
      parseCount w1.log = 1 := ⟨_, _, rfl, rfl⟩
  obtain ⟨ms, w1, h1, hc⟩ := hall
  obtain ⟨m, w2, h2, h3⟩ :=
    (C3_cache_hit_does_not_parse Example.importer).2 [(1, "assets/crate.obj")]
      Example.world0 w1 ms 2 "assets/crate.obj" h1 (by simp)
  exact ⟨ms, w1, m, w2, h1, hc, h2, h3⟩

/-! ## C4: textures are recorded once per path -/

/-- C4.  Starting from an empty `mTextureLoaded`, after any sequence of calls
of `loadMaterialTextures` the recorded entries have pairwise distinct paths; a
call appends to `mTextureLoaded` only textures whose path no earlier entry has,
and no two of them with the same path; and when two materials declare the same
file, after the two calls exactly one recorded entry has the resolved path of
that file, and this entry is an element of both returned lists. -/
theorem C4_textures_recorded_once :
    (∀ (calls : List (aiMaterial × aiTextureType × String)) (self : Model),
      self.mTextureLoaded = [] →
      ((loadMaterialTexturesSeq calls self).2.mTextureLoaded.map Texture.getPath).Nodup) ∧
    (∀ (mat : aiMaterial) (type : aiTextureType) (typeName : String) (self : Model),
      ∃ new, (loadMaterialTextures mat type typeName self).2.mTextureLoaded =
          self.mTextureLoaded ++ new ∧
        (∀ t ∈ new, t.getPath ∉ self.mTextureLoaded.map Texture.getPath) ∧
        (new.map Texture.getPath).Nodup) ∧
    (∀ (mat1 mat2 : aiMaterial) (type1 type2 : aiTextureType) (name1 name2 : String)
        (self : Model) (file : String),
      self.mTextureLoaded = [] → file ∈ mat1.textures type1 → file ∈ mat2.textures type2 →
      ∃ l1 l2 final t,
        loadMaterialTexturesSeq [(mat1, type1, name1), (mat2, type2, name2)] self =
          ([l1, l2], final) ∧
        (final.mTextureLoaded.map Texture.getPath).count (self.directory ++ "/" ++ file) = 1 ∧
        t ∈ final.mTextureLoaded ∧ t.getPath = self.directory ++ "/" ++ file ∧
        t ∈ l1 ∧ t ∈ l2) := by
  refine ⟨?_, ?_, ?_⟩
  · intro calls self h
    exact loadMaterialTexturesSeq_nodup calls self (by simp [h])
  · intro mat type typeName self
    obtain ⟨new, heq, -, -, hnew, hnd⟩ := loadMaterialTextures_spec mat type typeName self
    exact ⟨new, by rw [heq], fun t ht => (hnew t ht).1, hnd⟩
  · intro mat1 mat2 type1 type2 name1 name2 self file h0 hf1 hf2
    obtain ⟨n1, e1, p1, o1, f1, d1⟩ := loadMaterialTextures_spec mat1 type1 name1 self
    obtain ⟨n2, e2, p2, o2, f2, d2⟩ := loadMaterialTextures_spec mat2 type2 name2
      (loadMaterialTextures mat1 type1 name1 self).2
    have hdir : (loadMaterialTextures mat1 type1 name1 self).2.directory = self.directory := by
      rw [e1]
    have hM1 : (loadMaterialTextures mat1 type1 name1 self).2.mTextureLoaded =
        self.mTextureLoaded ++ n1 := by rw [e1]
    rw [hdir] at p2
    rw [hM1] at o2 f2 e2
    -- the final record has distinct paths
    have hnd : (((self.mTextureLoaded ++ n1) ++ n2).map Texture.getPath).Nodup :=
      nodup_paths_append _ _
        (nodup_paths_append _ _ (by simp [h0]) d1 (fun t ht => (f1 t ht).1)) d2
        (fun t ht => (f2 t ht).1)
    -- an element of each returned list with the resolved path
    have hm1 : self.directory ++ "/" ++ file ∈
        (loadMaterialTextures mat1 type1 name1 self).1.map Texture.getPath := by
      rw [p1]; exact List.mem_map.2 ⟨file, hf1, rfl⟩
    have hm2 : self.directory ++ "/" ++ file ∈
        (loadMaterialTextures mat2 type2 name2
          (loadMaterialTextures mat1 type1 name1 self).2).1.map Texture.getPath := by
      rw [p2]; exact List.mem_map.2 ⟨file, hf2, rfl⟩
    obtain ⟨t1, ht1, hp1⟩ := List.mem_map.1 hm1
    obtain ⟨t2, ht2, hp2⟩ := List.mem_map.1 hm2
    have hin1 : t1 ∈ (self.mTextureLoaded ++ n1) ++ n2 :=
      List.mem_append_left _ (o1 t1 ht1)
    have hin2 : t2 ∈ (self.mTextureLoaded ++ n1) ++ n2 := o2 t2 ht2
    have heq : t1 = t2 :=
      List.inj_on_of_nodup_map hnd hin1 hin2 (hp1.trans hp2.symm)
    refine ⟨_, _, _, t1, rfl, ?_, ?_, hp1, ht1, heq ▸ ht2⟩
    · simp only [loadMaterialTexturesSeq]
      rw [e2]
      exact List.count_eq_one_of_mem hnd (List.mem_map.2 ⟨t1, hin1, hp1⟩)
    · simp only [loadMaterialTexturesSeq]
      rw [e2]
      exact hin1

/-- C4, witness: the sample materials `wood` and `plank` both declare
`wood.png` as diffuse map. -/
theorem C4_textures_recorded_once_witness :
    ∃ l1 l2 final t,
      loadMaterialTexturesSeq
          [(Example.wood, aiTextureType.DIFFUSE, "texture_diffuse"),
           (Example.plank, aiTextureType.DIFFUSE, "texture_diffuse")] (Model.init 1) =
        ([l1, l2], final) ∧
      (final.mTextureLoaded.map Texture.getPath).count
        ((Model.init 1).directory ++ "/" ++ "wood.png") = 1 ∧
      t ∈ final.mTextureLoaded ∧ t.getPath = (Model.init 1).directory ++ "/" ++ "wood.png" ∧
      t ∈ l1 ∧ t ∈ l2 :=
  C4_textures_recorded_once.2.2 Example.wood Example.plank .DIFFUSE .DIFFUSE
    "texture_diffuse" "texture_diffuse" (Model.init 1) "wood.png" rfl (by decide) (by decide)

/-! ## C5: the tree is flattened in depth-first pre-order -/

/-- C5.  Processing a node is one pass over the mesh references of its tree in
depth-first pre-order (those of the node, then those of each child in order).
It returns when every reference can be read, and whenever it returns the
children present before keep their positions, one child is appended per mesh
reference of the tree, and the `i`-th appended child is the mesh that
`processMesh` builds for the `i`-th reference, with the model as its parent. -/
theorem C5_processNode_preorder (scene : aiScene) (node : aiNode) (self : Model) :
    processNode scene node self = meshLoop scene (meshRefs node) self ∧
    (refsReadable scene (meshRefs node) = true →
      ∃ self', processNode scene node self = .ok self') ∧
    (∀ self', processNode scene node self = .ok self' →
      ∃ added, self'.mChildren = self.mChildren ++ added ∧
        added.length = (meshRefs node).length ∧
        ∀ (i idx : Nat), (meshRefs node)[i]? = some idx →
          ∃ mesh c st st', scene.mMeshes[idx]? = some mesh ∧
            processMesh mesh scene st = .ok (c, st') ∧
            added[i]? = some (c.setParent self.addr)) := by
  refine ⟨processNode_eq_meshLoop scene node self, ?_, ?_⟩
  · intro h
    rw [processNode_eq_meshLoop]
    exact meshLoop_total scene _ self h
  · intro self' h
    rw [processNode_eq_meshLoop] at h
    exact (meshLoop_ok_inv scene _ self self' h).2.2

/-- C5, witness: the sample tree has the references `0, 1, 0, 2` in pre-order
and processing it appends four children to a model that has none. -/
theorem C5_processNode_preorder_witness :
    meshRefs Example.tree = [0, 1, 0, 2] ∧
    ∃ self', processNode Example.scene Example.tree (Model.init 1) = .ok self' ∧
      ∃ added, self'.mChildren = (Model.init 1).mChildren ++ added ∧ added.length = 4 := by
  obtain ⟨self', h⟩ := (C5_processNode_preorder Example.scene Example.tree (Model.init 1)).2.1 rfl
  obtain ⟨added, h1, h2, -⟩ :=
    (C5_processNode_preorder Example.scene Example.tree (Model.init 1)).2.2 self' h
  exact ⟨rfl, self', h, added, h1, h2⟩

/-! ## C6 to C9: the mesh record -/

theorem length_flatten_triangles (faces : List aiFace)
    (h : ∀ f ∈ faces, f.mIndices.length = 3) :
    ((faces.map aiFace.mIndices).flatten).length = 3 * faces.length := by
  induction faces with
  | nil => simp
  | cons f fs ih =>
    have h1 : f.mIndices.length = 3 := h f (by simp)
    have h2 := ih (fun g hg => h g (by simp [hg]))
    simp only [List.map_cons, List.flatten_cons, List.length_append, List.length_cons, h1, h2]
    omega

/-- The vertices of a result of `processMesh`: one per source vertex, the
`i`-th built by the loop body from the `i`-th source vertex. -/
theorem processMesh_vertices (mesh : aiMesh) (scene : aiScene) (self self' : Model) (m : Mesh)
    (h : processMesh mesh scene self = .ok (m, self')) :
    m.vertices.length = mesh.mVertices.length ∧
    ∀ (i : Nat) (v : Vertex), m.vertices[i]? = some v →
      ∃ p, mesh.mVertices[i]? = some p ∧ buildVertex mesh i p = .ok v := by
  obtain ⟨hv, -, -, -⟩ := processMesh_ok_inv mesh scene self self' m h
  obtain ⟨new, hnew, hlen, hall⟩ := vertexLoop_ok_inv mesh _ _ _ _ hv
  simp only [List.nil_append] at hnew
  subst hnew
  refine ⟨hlen, ?_⟩
  intro i v hiv
  have hi : i < mesh.mVertices.length := by
    have := (List.getElem?_eq_some_iff.1 hiv).1
    omega
  obtain ⟨w, hw, hb⟩ := hall i (mesh.mVertices[i]) (List.getElem?_eq_getElem hi)
  rw [hiv] at hw
  simp only [Option.some.injEq] at hw
  subst hw
  exact ⟨_, List.getElem?_eq_getElem hi, by simpa using hb⟩

/-- C6.  `processMesh` returns when the arrays it reads can be read, and the
index sequence of every mesh it returns is the concatenation of the index lists
of the faces, in face order and in within-face order; when every face has three
indices its length is three times the number of faces. -/
theorem C6_indices_are_concatenated_faces (mesh : aiMesh) (scene : aiScene) (self : Model) :
    (vertexArraysReadable mesh = true → materialReadable mesh scene = true →
      ∃ m self', processMesh mesh scene self = .ok (m, self')) ∧
    (∀ m self', processMesh mesh scene self = .ok (m, self') →
      m.indices = (mesh.mFaces.map aiFace.mIndices).flatten ∧
      ((∀ f ∈ mesh.mFaces, f.mIndices.length = 3) →
        m.indices.length = 3 * mesh.mFaces.length)) := by
  refine ⟨processMesh_total mesh scene self, ?_⟩
  intro m self' h
  obtain ⟨-, hi, -, -⟩ := processMesh_ok_inv mesh scene self self' m h
  exact ⟨hi, fun htri => by rw [hi]; exact length_flatten_triangles _ htri⟩

/-- C6, witness: the faces `[[0,1,2],[2,3,0]]` of the sample quad give the
index sequence `[0,1,2,2,3,0]`, of length `3 * 2`. -/
theorem C6_indices_are_concatenated_faces_witness :
    Example.quad.mFaces = [⟨[0, 1, 2]⟩, ⟨[2, 3, 0]⟩] ∧
    ∃ m self', processMesh Example.quad Example.scene (Model.init 1) = .ok (m, self') ∧
      m.indices = [0, 1, 2, 2, 3, 0] ∧ m.indices.length = 3 * 2 := by
  obtain ⟨m, self', h⟩ :=
    (C6_indices_are_concatenated_faces Example.quad Example.scene (Model.init 1)).1 rfl rfl
  obtain ⟨h1, h2⟩ :=
    (C6_indices_are_concatenated_faces Example.quad Example.scene (Model.init 1)).2 m self' h
  exact ⟨rfl, m, self', h, h1, h2 (by decide)⟩

/-- C7, counterexample.  The sample segment has a face of two indices; its
per-vertex arrays are complete and its material index `0` resolves to a
material of the scene.  `processMesh` returns a mesh for it, with the index
sequence `[0, 1]`. -/
theorem C7_face_of_two_indices_is_accepted :
    (∃ f ∈ Example.segment.mFaces, f.mIndices.length ≠ 3) ∧
    vertexArraysReadable Example.segment = true ∧
    Example.segment.mMaterialIndex < Example.scene.mMaterials.length ∧
    ∃ m self', processMesh Example.segment Example.scene (Model.init 1) = .ok (m, self') ∧
      m.indices = [0, 1] :=
  ⟨⟨⟨[0, 1]⟩, by decide, by decide⟩, rfl, by decide, _, _, rfl, rfl⟩

/-- C7, amended.  `processMesh` makes no check on the number of indices of a
face: for a geometry unit that contains a face whose number of indices is not
three, it returns a mesh whenever the arrays it reads can be read, the index
sequence is the concatenation of the index lists of all faces, and the indices
of that face occur in it as a contiguous block. -/
theorem C7_faces_are_not_checked (mesh : aiMesh) (scene : aiScene) (self : Model)
    (hface : ∃ f ∈ mesh.mFaces, f.mIndices.length ≠ 3)
    (hv : vertexArraysReadable mesh = true) (hm : materialReadable mesh scene = true) :
    ∃ m self', processMesh mesh scene self = .ok (m, self') ∧
      m.indices = (mesh.mFaces.map aiFace.mIndices).flatten ∧
      ∃ f ∈ mesh.mFaces, f.mIndices.length ≠ 3 ∧ List.IsInfix f.mIndices m.indices := by
  obtain ⟨m, self', h⟩ := processMesh_total mesh scene self hv hm
  obtain ⟨-, hi, -, -⟩ := processMesh_ok_inv mesh scene self self' m h
  obtain ⟨f, hf, hlen⟩ := hface
  refine ⟨m, self', h, hi, f, hf, hlen, ?_⟩
  rw [hi]
  exact List.infix_of_mem_flatten (List.mem_map.2 ⟨f, hf, rfl⟩)

/-- C7, witness: the amended statement at the sample segment. -/
theorem C7_faces_are_not_checked_witness :
    ∃ m self', processMesh Example.segment Example.scene (Model.init 1) = .ok (m, self') ∧
      m.indices = (Example.segment.mFaces.map aiFace.mIndices).flatten ∧
      ∃ f ∈ Example.segment.mFaces, f.mIndices.length ≠ 3 ∧ List.IsInfix f.mIndices m.indices :=
  C7_faces_are_not_checked Example.segment Example.scene (Model.init 1)
    ⟨⟨[0, 1]⟩, by decide, by decide⟩ rfl rfl

/-- C8.  `processMesh` returns when the arrays it reads can be read, with one
vertex per source vertex.  When the geometry unit has no texture-coordinate
channel 0, every vertex of the mesh has texture coordinate `(0.0, 0.0)`; when
channel 0 is present, the `i`-th vertex has the `x` and `y` of the `i`-th
coordinate of the channel. -/
theorem C8_texture_coordinates (mesh : aiMesh) (scene : aiScene) (self : Model) :
    (vertexArraysReadable mesh = true → materialReadable mesh scene = true →
      ∃ m self', processMesh mesh scene self = .ok (m, self')) ∧
    (∀ m self', processMesh mesh scene self = .ok (m, self') →
      m.vertices.length = mesh.mVertices.length ∧
      (mesh.mTextureCoords0 = none →
        ∀ v ∈ m.vertices, v.TexCoords = ⟨float.zero, float.zero⟩) ∧
      (∀ tc, mesh.mTextureCoords0 = some tc →
        ∀ (i : Nat) (v : Vertex), m.vertices[i]? = some v →
          ∃ c, tc[i]? = some c ∧ v.TexCoords = ⟨c.x, c.y⟩)) := by
  refine ⟨processMesh_total mesh scene self, ?_⟩
  intro m self' h
  obtain ⟨hlen, hall⟩ := processMesh_vertices mesh scene self self' m h
  refine ⟨hlen, ?_, ?_⟩
  · intro hnone v hv
    obtain ⟨i, hi⟩ := List.getElem?_of_mem hv
    obtain ⟨p, -, hb⟩ := hall i v hi
    exact (buildVertex_ok_inv mesh i p v hb).2.2.2.1 hnone
  · intro tc hsome i v hi
    obtain ⟨p, -, hb⟩ := hall i v hi
    exact (buildVertex_ok_inv mesh i p v hb).2.2.2.2 tc hsome

/-- C8, witness: the sample quad has no channel 0 and its four vertices get
`(0.0, 0.0)`; the sample triangle has one and its second vertex gets the `x`
and `y` of the second coordinate. -/
theorem C8_texture_coordinates_witness :
    (∃ m self', processMesh Example.quad Example.scene (Model.init 1) = .ok (m, self') ∧
      m.vertices.length = 4 ∧ ∀ v ∈ m.vertices, v.TexCoords = ⟨float.zero, float.zero⟩) ∧
    (∃ m self' v, processMesh Example.triangle Example.scene (Model.init 1) = .ok (m, self') ∧
      m.vertices[1]? = some v ∧ v.TexCoords = ⟨⟨5⟩, ⟨0⟩⟩) := by
  constructor
  · obtain ⟨m, self', h⟩ :=
      (C8_texture_coordinates Example.quad Example.scene (Model.init 1)).1 rfl rfl
    obtain ⟨h1, h2, -⟩ :=
      (C8_texture_coordinates Example.quad Example.scene (Model.init 1)).2 m self' h
    exact ⟨m, self', h, h1, h2 rfl⟩
  · exact ⟨_, _, _, rfl, rfl, rfl⟩

/-- C9, at the failing inputs.  The material index `5` of the sample mesh
`unresolved` is past the two materials of the scene, and so is the index
`4294967295` of `unassigned`, the value that `-1` becomes in the unsigned
field.  The guard `mMaterialIndex >= 0` holds for both, `processMesh` reads
`scene->mMaterials` outside the array and returns no mesh, where a mesh with an
empty texture list is called for. -/
theorem C9_unresolved_material_index_faults :
    (vertexArraysReadable Example.unresolved = true ∧
      ¬ (Example.unresolved.mMaterialIndex < Example.scene.mMaterials.length) ∧
      processMesh Example.unresolved Example.scene (Model.init 1) = .error .outOfBounds) ∧
    (vertexArraysReadable Example.unassigned = true ∧
      ¬ (Example.unassigned.mMaterialIndex < Example.scene.mMaterials.length) ∧
      processMesh Example.unassigned Example.scene (Model.init 1) = .error .outOfBounds) :=
  ⟨⟨rfl, by decide, rfl⟩, ⟨rfl, by decide, rfl⟩⟩

/-! ## C10: the directory of a path without separator -/

/-- C10, at the failing input.  The path `crate.obj` has no separator, so it
is no string of the form `directory ++ "/" ++ rest`: `find_last_of` yields
`npos`, the directory computed by `loadModel` is the whole path, and the
textures of the loaded model are resolved under `crate.obj/`. -/
theorem C10_directory_of_path_without_separator :
    (¬ ∃ dir rest : String, "crate.obj" = dir ++ "/" ++ rest) ∧
    find_last_of "crate.obj".data '/' = none ∧
    directoryOf "crate.obj" = "crate.obj" ∧
    ∃ m w, Model.new Example.importer 1 "crate.obj" Example.world0 = .ok (m, w) ∧
      m.directory = "crate.obj" ∧
      m.mTextureLoaded.map Texture.getPath = ["crate.obj/wood.png", "crate.obj/grain.png"] := by
  refine ⟨?_, rfl, rfl, _, _, rfl, rfl, rfl⟩
  rintro ⟨dir, rest, h⟩
  have hmem : '/' ∈ (dir ++ "/" ++ rest).data := by simp [String.data_append]
  rw [← h] at hmem
  exact absurd hmem (by decide)

/-! ## Lemmas on the faults of a run -/

theorem readAt_fault {α : Type} (arr : Option (List α)) (i : Nat) (e : Fault)
    (h : readAt arr i = .error e) : e = .nullDeref ∨ e = .outOfBounds := by
  cases arr with
  | none =>
    simp only [readAt, Except.error.injEq] at h
    exact Or.inl h.symm
  | some l =>
    cases hl : l[i]? with
    | none =>
      simp only [readAt, hl, Except.error.injEq] at h
      exact Or.inr h.symm
    | some a => simp [readAt, hl] at h

theorem buildVertex_fault (mesh : aiMesh) (i : Nat) (p : aiVector3D) (e : Fault)
    (h : buildVertex mesh i p = .error e) : e = .nullDeref ∨ e = .outOfBounds := by
  unfold buildVertex at h
  cases hn : readAt mesh.mNormals i with
  | error e1 =>
    simp only [hn, Except.error.injEq] at h
    subst h
    exact readAt_fault _ _ _ hn
  | ok n =>
    cases ht : readAt mesh.mTangents i with
    | error e1 =>
      simp only [hn, ht, Except.error.injEq] at h
      subst h
      exact readAt_fault _ _ _ ht
    | ok t =>
      cases htc : mesh.mTextureCoords0 with
      | none => simp [hn, ht, htc] at h
      | some tc =>
        simp only [hn, ht, htc] at h
        cases hc : readAt (some tc) i with
        | error e1 =>
          simp only [hc, Except.error.injEq] at h
          subst h
          exact readAt_fault _ _ _ hc
        | ok c => simp [hc] at h

theorem vertexLoop_fault (mesh : aiMesh) :
    ∀ (rest : List aiVector3D) (i : Nat) (acc : List Vertex) (e : Fault),
      vertexLoop mesh rest i acc = .error e → e = .nullDeref ∨ e = .outOfBounds := by
  intro rest
  induction rest with
  | nil => intro i acc e h; simp [vertexLoop] at h
  | cons p rest ih =>
    intro i acc e h
    cases hv : buildVertex mesh i p with
    | error e1 =>
      simp only [vertexLoop, hv, Except.error.injEq] at h
      subst h
      exact buildVertex_fault _ _ _ _ hv
    | ok v =>
      simp only [vertexLoop, hv] at h
      exact ih _ _ e h

theorem processMesh_fault (mesh : aiMesh) (scene : aiScene) (self : Model) (e : Fault)
    (h : processMesh mesh scene self = .error e) : e = .nullDeref ∨ e = .outOfBounds := by
  unfold processMesh at h
  cases hv : vertexLoop mesh mesh.mVertices 0 [] with
  | error e1 =>
    simp only [hv, Except.error.injEq] at h
    subst h
    exact vertexLoop_fault _ _ _ _ _ hv
  | ok vs =>
    simp only [hv] at h
    have hidx : 0 ≤ mesh.mMaterialIndex := Nat.zero_le _
    simp only [hidx, if_true] at h
    cases hm : scene.mMaterials[mesh.mMaterialIndex]? with
    | none =>
      simp only [hm, Except.error.injEq] at h
      exact Or.inr h.symm
    | some material => simp [hm] at h

theorem meshLoop_fault (scene : aiScene) :
    ∀ (refs : List Nat) (self : Model) (e : Fault),
      meshLoop scene refs self = .error e → e = .nullDeref ∨ e = .outOfBounds := by
  intro refs
  induction refs with
  | nil => intro self e h; simp [meshLoop] at h
  | cons idx refs ih =>
    intro self e h
    cases hm : scene.mMeshes[idx]? with
    | none =>
      simp only [meshLoop, hm, Except.error.injEq] at h
      exact Or.inr h.symm
    | some mesh =>
      cases hp : processMesh mesh scene self with
      | error e1 =>
        simp only [meshLoop, hm, hp, Except.error.injEq] at h
        subst h
        exact processMesh_fault _ _ _ _ hp
      | ok r =>
        obtain ⟨c, s⟩ := r
        simp only [meshLoop, hm, hp] at h
        exact ih _ e h

/-- The constructor stops only in a fault of the memory reads of the import:
the cache never refuses the insertion and never misses. -/
theorem Model.new_fault {D : Type} (env : Collaborators D) (addr : Nat) (path : String)
    (w : World D) (e : Fault) (h : Model.new env addr path w = .error e) :
    e = .nullDeref ∨ e = .outOfBounds := by
  cases hl : w.manager.entries.lookup path with
  | some data => rw [Model.new_hit env addr path w data hl] at h; simp at h
  | none =>
    rw [Model.new_miss env addr path w hl, loadModel_eq] at h
    cases hu : usableRoot (env.ReadFile path) with
    | none => simp [hu] at h
    | some r =>
      obtain ⟨scene, root⟩ := r
      simp only [hu] at h
      cases hp : processNode scene root { Model.init addr with directory := directoryOf path } with
      | error e1 =>
        simp only [hp, Except.error.injEq] at h
        subst h
        rw [processNode_eq_meshLoop] at hp
        exact meshLoop_fault _ _ _ _ hp
      | ok self => simp [hp] at h

theorem loadAll_fault {D : Type} (env : Collaborators D) :
    ∀ (reqs : List (Nat × String)) (w : World D) (e : Fault),
      loadAll env reqs w = .error e → e = .nullDeref ∨ e = .outOfBounds := by
  intro reqs
  induction reqs with
  | nil => intro w e h; simp [loadAll] at h
  | cons r reqs ih =>
    intro w e h
    obtain ⟨addr, path⟩ := r
    cases h1 : Model.new env addr path w with
    | error e1 =>
      simp only [loadAll, h1, Except.error.injEq] at h
      subst h
      exact Model.new_fault env addr path w _ h1
    | ok r1 =>
      obtain ⟨m, w1⟩ := r1
      cases h2 : loadAll env reqs w1 with
      | error e2 =>
        simp only [loadAll, h1, h2, Except.error.injEq] at h
        subst h
        exact ih w1 _ h2
      | ok r2 => simp [loadAll, h1, h2] at h

/-! ## Lemmas on the log of insertions -/

theorem addedPaths_append (a b : List Event) :
    addedPaths (a ++ b) = addedPaths a ++ addedPaths b := by
  induction a with
  | nil => simp [addedPaths]
  | cons e es ih => cases e <;> simp [addedPaths, ih]

theorem lookup_eq_none_keys {D : Type} (es : List (String × List D)) (path : String) :
    es.lookup path = none ↔ path ∉ es.map Prod.fst := by
  induction es with
  | nil => simp
  | cons x xs ih =>
    obtain ⟨k, v⟩ := x
    by_cases hk : path = k
    · subst hk; simp [List.lookup_cons]
    · have hb : (path == k) = false := by simpa using hk
      simp [List.lookup_cons, hb, ih, hk]

/-- What one construction does to the cache and to the log of insertions: on
a hit nothing, on a miss one entry under the path at the end of the registry
and one logged call of `addModelData` for the path. -/
theorem Model.new_insertions {D : Type} (env : Collaborators D) (addr : Nat) (path : String)
    (w w' : World D) (m : Model) (h : Model.new env addr path w = .ok (m, w')) :
    (w.manager.isModelLoaded path = true →
      w'.manager.entries = w.manager.entries ∧ addedPaths w'.log = addedPaths w.log) ∧
    (w.manager.isModelLoaded path = false →
      w'.manager.entries =
        w.manager.entries ++ [(path, m.mChildren.map env.packSharedData)] ∧
      addedPaths w'.log = addedPaths w.log ++ [path]) := by
  cases hl : w.manager.entries.lookup path with
  | some data =>
    have hld := (isModelLoaded_eq_true w.manager path).2 ⟨data, hl⟩
    rw [Model.new_hit env addr path w data hl] at h
    simp only [Except.ok.injEq, Prod.mk.injEq] at h
    obtain ⟨-, rfl⟩ := h
    refine ⟨fun _ => ⟨rfl, by simp [addedPaths_append, addedPaths]⟩, ?_⟩
    intro hf; rw [hld] at hf; exact absurd hf (by simp)
  | none =>
    have hnl := (isModelLoaded_eq_false w.manager path).2 hl
    rw [Model.new_miss env addr path w hl, loadModel_eq] at h
    refine ⟨fun hh => by rw [hnl] at hh; exact absurd hh (by simp), fun _ => ?_⟩
    cases hu : usableRoot (env.ReadFile path) with
    | none =>
      simp only [hu, Except.ok.injEq, Prod.mk.injEq] at h
      obtain ⟨rfl, rfl⟩ := h
      exact ⟨rfl, by simp [addedPaths_append, addedPaths]⟩
    | some r =>
      obtain ⟨scene, root⟩ := r
      simp only [hu] at h
      cases hp : processNode scene root { Model.init addr with directory := directoryOf path } with
      | error e => simp [hp] at h
      | ok self =>
        simp only [hp, Except.ok.injEq, Prod.mk.injEq] at h
        obtain ⟨rfl, rfl⟩ := h
        exact ⟨rfl, by simp [addedPaths_append, addedPaths]⟩

/-- Along a sequence of constructions the registry only grows at its end, its
keys stay the logged insertions, and these stay pairwise distinct. -/
theorem loadAll_insertions {D : Type} (env : Collaborators D) :
    ∀ (reqs : List (Nat × String)) (w w' : World D) (ms : List Model),
      loadAll env reqs w = .ok (ms, w') →
      w.manager.entries.map Prod.fst = addedPaths w.log →
      (w.manager.entries.map Prod.fst).Nodup →
      w'.manager.entries.map Prod.fst = addedPaths w'.log ∧
      (w'.manager.entries.map Prod.fst).Nodup ∧
      (∃ more, w'.manager.entries = w.manager.entries ++ more ∧
        ∀ p ∈ more.map Prod.fst, p ∈ reqs.map Prod.snd) := by
  intro reqs
  induction reqs with
  | nil =>
    intro w w' ms h hk hn
    simp only [loadAll, Except.ok.injEq, Prod.mk.injEq] at h
    obtain ⟨-, rfl⟩ := h
    exact ⟨hk, hn, [], by simp, by simp⟩
  | cons r reqs ih =>
    intro w w' ms h hk hn
    obtain ⟨addr, path⟩ := r
    cases h1 : Model.new env addr path w with
    | error e => simp [loadAll, h1] at h
    | ok r1 =>
      obtain ⟨m, w1⟩ := r1
      cases h2 : loadAll env reqs w1 with
      | error e => simp [loadAll, h1, h2] at h
      | ok r2 =>
        obtain ⟨ms2, w2⟩ := r2
        simp only [loadAll, h1, h2, Except.ok.injEq, Prod.mk.injEq] at h
        obtain ⟨-, rfl⟩ := h
        obtain ⟨hhit, hmiss⟩ := Model.new_insertions env addr path w w1 m h1
        cases hld : w.manager.isModelLoaded path with
        | true =>
          obtain ⟨e1, e2⟩ := hhit hld
          obtain ⟨i1, i2, more, i3, i4⟩ := ih w1 w2 ms2 h2 (by rw [e1, e2, hk]) (by rw [e1]; exact hn)
          refine ⟨i1, i2, more, by rw [i3, e1], ?_⟩
          intro p hp
          simp only [List.map_cons, List.mem_cons]
          exact Or.inr (i4 p hp)
        | false =>
          obtain ⟨e1, e2⟩ := hmiss hld
          have hfresh : path ∉ w.manager.entries.map Prod.fst :=
            (lookup_eq_none_keys _ _).1 ((isModelLoaded_eq_false _ _).1 hld)
          obtain ⟨i1, i2, more, i3, i4⟩ := ih w1 w2 ms2 h2
            (by rw [e1, e2, List.map_append, hk]; rfl)
            (by
              rw [e1, List.map_append, List.nodup_append]
              refine ⟨hn, by simp, ?_⟩
              intro p hp1 hp2
              simp only [List.map_cons, List.map_nil, List.mem_singleton] at hp2
              subst hp2
              exact hfresh hp1)
          refine ⟨i1, i2, (path, m.mChildren.map env.packSharedData) :: more,
            by rw [i3, e1]; simp, ?_⟩
          intro p hp
          simp only [List.map_cons, List.mem_cons] at hp ⊢
          rcases hp with rfl | hp
          · exact Or.inl rfl
          · exact Or.inr (i4 p hp)

/-! ## C11: one insertion per path -/

/-- C11.  Over every sequence of constructions that starts from the empty
cache: the sequence never stops because the cache refuses an insertion; when it
returns, the paths for which `addModelData` was called are pairwise distinct,
are the keys of the cache in order, are exactly the paths for which
`isModelLoaded` is true, and are paths of the sequence; and a further
construction calls `addModelData` for its path only when `isModelLoaded` is
false for it, leaves the cache as it is otherwise, and in both cases leaves
every entry that exists in place with its data. -/
theorem C11_one_insertion_per_path {D : Type} (env : Collaborators D)
    (reqs : List (Nat × String)) :
    (∀ e, loadAll env reqs (⟨⟨[]⟩, []⟩ : World D) = .error e → e ≠ .cacheConflict) ∧
    (∀ ms w, loadAll env reqs (⟨⟨[]⟩, []⟩ : World D) = .ok (ms, w) →
      (addedPaths w.log).Nodup ∧
      addedPaths w.log = w.manager.entries.map Prod.fst ∧
      (∀ p, w.manager.isModelLoaded p = true ↔ p ∈ addedPaths w.log) ∧
      (∀ p ∈ addedPaths w.log, p ∈ reqs.map Prod.snd) ∧
      ∀ (addr : Nat) (path : String) (m : Model) (w' : World D),
        Model.new env addr path w = .ok (m, w') →
        (w.manager.isModelLoaded path = true →
          addedPaths w'.log = addedPaths w.log ∧
          w'.manager.entries = w.manager.entries) ∧
        (w.manager.isModelLoaded path = false →
          addedPaths w'.log = addedPaths w.log ++ [path]) ∧
        ∀ q data, w.manager.entries.lookup q = some data →
          w'.manager.entries.lookup q = some data) := by
  constructor
  · intro e h
    rcases loadAll_fault env reqs _ e h with rfl | rfl <;> simp
  · intro ms w h
    obtain ⟨hk, hn, more, hm, hreq⟩ :=
      loadAll_insertions env reqs _ w ms h (by simp [addedPaths]) (by simp)
    simp only [List.nil_append] at hm
    refine ⟨hk ▸ hn, hk.symm, ?_, ?_, ?_⟩
    · intro p
      rw [← hk]
      constructor
      · intro hp
        by_contra hnot
        have := (isModelLoaded_eq_false _ _).2 ((lookup_eq_none_keys _ _).2 hnot)
        rw [hp] at this
        exact absurd this (by simp)
      · intro hp
        cases hl : w.manager.isModelLoaded p with
        | true => rfl
        | false =>
          exact absurd hp ((lookup_eq_none_keys _ _).1 ((isModelLoaded_eq_false _ _).1 hl))
    · intro p hp
      rw [← hk, hm] at hp
      exact hreq p hp
    · intro addr path m w' hnew
      obtain ⟨hhit, hmiss⟩ := Model.new_insertions env addr path w w' m hnew
      obtain ⟨-, hkeep, -, -⟩ := Model.new_ok_inv env addr path w w' m hnew
      exact ⟨fun hl => ⟨(hhit hl).2, (hhit hl).1⟩, fun hl => (hmiss hl).2, hkeep⟩

/-- C11, witness: three constructions from the empty cache, two of them for the
same path, call `addModelData` once per distinct path. -/
theorem C11_one_insertion_per_path_witness :
    ∃ ms w,
      loadAll Example.importer
          [(1, "assets/crate.obj"), (2, "assets/crate.obj"), (3, "missing.obj")]
          (⟨⟨[]⟩, []⟩ : World Example.Packed) = .ok (ms, w) ∧
      addedPaths w.log = ["assets/crate.obj", "missing.obj"] ∧
      (addedPaths w.log).Nodup ∧
      addedPaths w.log = w.manager.entries.map Prod.fst := by
  have hrun : ∃ ms w,
      loadAll Example.importer
          [(1, "assets/crate.obj"), (2, "assets/crate.obj"), (3, "missing.obj")]
          (⟨⟨[]⟩, []⟩ : World Example.Packed) = .ok (ms, w) ∧
      addedPaths w.log = ["assets/crate.obj", "missing.obj"] := ⟨_, _, rfl, rfl⟩
  obtain ⟨ms, w, h1, h2⟩ := hrun
  obtain ⟨h3, h4, -⟩ :=
    (C11_one_insertion_per_path Example.importer
      [(1, "assets/crate.obj"), (2, "assets/crate.obj"), (3, "missing.obj")]).2 ms w h1
  exact ⟨ms, w, h1, h2, h3, h4⟩

/-! ## C12 and C13: positions, normals and tangents -/

/-- C12.  For a geometry unit that provides normals and tangents,
`processMesh` returns when the arrays it reads can be read, and every mesh it
returns has exactly one vertex per source vertex, in source order: the `i`-th
vertex has the `x`, `y`, `z` of the `i`-th source position, of the `i`-th
normal and of the `i`-th tangent. -/
theorem C12_vertices_copy_the_source (mesh : aiMesh) (scene : aiScene) (self : Model)
    (ns ts : List aiVector3D) (hn : mesh.mNormals = some ns) (ht : mesh.mTangents = some ts) :
    (vertexArraysReadable mesh = true → materialReadable mesh scene = true →
      ∃ m self', processMesh mesh scene self = .ok (m, self')) ∧
    (∀ m self', processMesh mesh scene self = .ok (m, self') →
      m.vertices.length = mesh.mVertices.length ∧
      ∀ (i : Nat) (v : Vertex), m.vertices[i]? = some v →
        ∃ p n t, mesh.mVertices[i]? = some p ∧ ns[i]? = some n ∧ ts[i]? = some t ∧
          v.Position = ⟨p.x, p.y, p.z⟩ ∧ v.Normal = ⟨n.x, n.y, n.z⟩ ∧
          v.Tangent = ⟨t.x, t.y, t.z⟩) := by
  refine ⟨processMesh_total mesh scene self, ?_⟩
  intro m self' h
  obtain ⟨hlen, hall⟩ := processMesh_vertices mesh scene self self' m h
  refine ⟨hlen, ?_⟩
  intro i v hi
  obtain ⟨p, hp, hb⟩ := hall i v hi
  obtain ⟨hpos, ⟨n, hrn, hnor⟩, ⟨t, hrt, htan⟩, -, -⟩ := buildVertex_ok_inv mesh i p v hb
  rw [hn] at hrn
  rw [ht] at hrt
  obtain ⟨l1, e1, g1⟩ := (readAt_ok_iff _ _ _).1 hrn
  obtain ⟨l2, e2, g2⟩ := (readAt_ok_iff _ _ _).1 hrt
  simp only [Option.some.injEq] at e1 e2
  subst e1
  subst e2
  exact ⟨p, n, t, hp, g1, g2, hpos, hnor, htan⟩

/-- C12, witness: the sample triangle; its second vertex has the second
position, normal and tangent of the source. -/
theorem C12_vertices_copy_the_source_witness :
    ∃ m self', processMesh Example.triangle Example.scene (Model.init 1) = .ok (m, self') ∧
      m.vertices.length = 3 ∧
      ∃ v, m.vertices[1]? = some v ∧ v.Position = ⟨⟨1⟩, ⟨0⟩, ⟨0⟩⟩ ∧
        v.Normal = ⟨⟨0⟩, ⟨0⟩, ⟨1⟩⟩ ∧ v.Tangent = ⟨⟨1⟩, ⟨0⟩, ⟨0⟩⟩ := by
  have h := C12_vertices_copy_the_source Example.triangle Example.scene (Model.init 1)
    _ _ rfl rfl
  obtain ⟨m, self', hok⟩ := h.1 rfl rfl
  obtain ⟨hlen, -⟩ := h.2 m self' hok
  have hev : ∃ m0 s0, processMesh Example.triangle Example.scene (Model.init 1) = .ok (m0, s0) ∧
      ∃ v, m0.vertices[1]? = some v ∧ v.Position = ⟨⟨1⟩, ⟨0⟩, ⟨0⟩⟩ ∧
        v.Normal = ⟨⟨0⟩, ⟨0⟩, ⟨1⟩⟩ ∧ v.Tangent = ⟨⟨1⟩, ⟨0⟩, ⟨0⟩⟩ :=
    ⟨_, _, rfl, _, rfl, rfl, rfl, rfl⟩
  obtain ⟨m0, s0, h0, hv⟩ := hev
  rw [hok] at h0
  simp only [Except.ok.injEq, Prod.mk.injEq] at h0
  obtain ⟨rfl, rfl⟩ := h0
  exact ⟨m, self', hok, hlen, hv⟩

/-- Whenever the tangent array is null and the geometry unit has a vertex,
`processMesh` stops in a fault and returns no mesh. -/
theorem processMesh_absent_tangents (mesh : aiMesh) (scene : aiScene) (self : Model)
    (ht : mesh.mTangents = none) (hv : mesh.mVertices ≠ []) :
    ∃ e, processMesh mesh scene self = .error e := by
  cases hl : mesh.mVertices with
  | nil => exact absurd hl hv
  | cons p rest =>
    have hb : ∃ e, buildVertex mesh 0 p = .error e := by
      unfold buildVertex
      cases hn : readAt mesh.mNormals 0 with
      | error e => exact ⟨e, rfl⟩
      | ok n => simp [ht, readAt]
    obtain ⟨e, he⟩ := hb
    exact ⟨e, by simp [processMesh, hl, vertexLoop, he]⟩

/-- C13, at the failing input.  The sample mesh `untangented` has normals and
four vertices but no tangent array; `processMesh` reads `mTangents[0]` through
the null pointer and returns no mesh: it neither reports missing tangents nor
substitutes the zero vector. -/
theorem C13_absent_tangents_are_read :
    Example.untangented.mTangents = none ∧
    vertexLoop Example.untangented Example.untangented.mVertices 0 [] = .error .nullDeref ∧
    processMesh Example.untangented Example.scene (Model.init 1) = .error .nullDeref :=
  ⟨rfl, rfl, rfl⟩

/-! ## C15 to C17: the textures of a material -/

/-- C15.  For every material, texture type and state of the model,
`loadMaterialTextures` returns one texture per path that the material declares
under the type, the `i`-th with the path `directory ++ "/" ++` the `i`-th
declared path.  The entries of `mTextureLoaded` stay unchanged and in place;
what is appended are textures built with the given tag for declared paths, each
with a path that was not recorded, and every declared path that was not
recorded is appended exactly once. -/
theorem C15_returned_and_recorded_textures (mat : aiMaterial) (type : aiTextureType)
    (typeName : String) (self : Model) :
    (loadMaterialTextures mat type typeName self).1.length = (mat.textures type).length ∧
    (∀ (i : Nat) (s : String), (mat.textures type)[i]? = some s →
      ∃ t, (loadMaterialTextures mat type typeName self).1[i]? = some t ∧
        t.getPath = self.directory ++ "/" ++ s) ∧
    ∃ new, (loadMaterialTextures mat type typeName self).2.mTextureLoaded =
        self.mTextureLoaded ++ new ∧
      (∀ t ∈ new, t.getPath ∉ self.mTextureLoaded.map Texture.getPath ∧
        ∃ s ∈ mat.textures type, t = ⟨self.directory ++ "/" ++ s, typeName⟩) ∧
      (∀ s ∈ mat.textures type,
        self.directory ++ "/" ++ s ∉ self.mTextureLoaded.map Texture.getPath →
        (new.map Texture.getPath).count (self.directory ++ "/" ++ s) = 1) := by
  obtain ⟨new, heq, hpath, hout, hnew, hnd⟩ := loadMaterialTextures_spec mat type typeName self
  have hlen : (loadMaterialTextures mat type typeName self).1.length =
      (mat.textures type).length := by
    have := congrArg List.length hpath
    simpa using this
  refine ⟨hlen, ?_, new, by rw [heq], ?_, ?_⟩
  · intro i s hs
    have hi : i < (mat.textures type).length := (List.getElem?_eq_some_iff.1 hs).1
    have hi' : i < (loadMaterialTextures mat type typeName self).1.length := by omega
    refine ⟨(loadMaterialTextures mat type typeName self).1[i], List.getElem?_eq_getElem hi', ?_⟩
    have h1 : ((loadMaterialTextures mat type typeName self).1.map Texture.getPath)[i]? =
        ((mat.textures type).map (fun s => self.directory ++ "/" ++ s))[i]? := by rw [hpath]
    simp only [List.getElem?_map, List.getElem?_eq_getElem hi', hs, Option.map_some',
      Option.some.injEq] at h1
    exact h1
  · intro t ht
    obtain ⟨h1, h2, h3⟩ := hnew t ht
    refine ⟨h1, ?_⟩
    have hmem : t.getPath ∈ (mat.textures type).map (fun s => self.directory ++ "/" ++ s) := by
      rw [← hpath]; exact List.mem_map.2 ⟨t, h3, rfl⟩
    obtain ⟨s, hs, hsp⟩ := List.mem_map.1 hmem
    refine ⟨s, hs, ?_⟩
    cases t with
    | mk p n =>
      simp only [Texture.getPath] at hsp
      simp only at h2
      rw [← hsp, h2]
  · intro s hs hfresh
    have hmem : self.directory ++ "/" ++ s ∈
        (loadMaterialTextures mat type typeName self).1.map Texture.getPath := by
      rw [hpath]; exact List.mem_map.2 ⟨s, hs, rfl⟩
    obtain ⟨t, ht, htp⟩ := List.mem_map.1 hmem
    have hin : t ∈ new := by
      rcases List.mem_append.1 (hout t ht) with hold | hn
      · exact absurd (List.mem_map.2 ⟨t, hold, htp⟩) hfresh
      · exact hn
    exact List.count_eq_one_of_mem hnd (List.mem_map.2 ⟨t, hin, htp⟩)

/-- C15, witness: the sample material `plank` declares two diffuse maps; from
a model with directory `assets` that has recorded nothing, both are returned
with their resolved paths and both are recorded. -/
theorem C15_returned_and_recorded_textures_witness :
    ∃ t, (loadMaterialTextures Example.plank .DIFFUSE "texture_diffuse"
        { Model.init 1 with directory := "assets" }).1[1]? = some t ∧
      t.getPath = "assets" ++ "/" ++ "grain.png" := by
  have h := (C15_returned_and_recorded_textures Example.plank .DIFFUSE "texture_diffuse"
    { Model.init 1 with directory := "assets" }).2.1 1 "grain.png" rfl
  exact h

/-- C16.  For a geometry unit whose material index resolves to a material of
the scene, `processMesh` returns when the per-vertex arrays can be read, and
the texture list of every mesh it returns is the concatenation of the results
of the three calls of `loadMaterialTextures`, made in this order on the model
as the previous call left it: diffuse with tag `texture_diffuse`, specular with
tag `texture_specular`, height with tag `texture_normal`.  Its paths are the
resolved paths declared under these three types, in this order, and no other;
and its tags are among the three when those of the recorded textures are. -/
theorem C16_textures_of_three_roles (mesh : aiMesh) (scene : aiScene) (self : Model)
    (material : aiMaterial)
    (hmat : scene.mMaterials[mesh.mMaterialIndex]? = some material) :
    (vertexArraysReadable mesh = true →
      ∃ m self', processMesh mesh scene self = .ok (m, self')) ∧
    (∀ m self', processMesh mesh scene self = .ok (m, self') →
      m.textures =
        (loadMaterialTextures material .DIFFUSE "texture_diffuse" self).1 ++
        (loadMaterialTextures material .SPECULAR "texture_specular"
          (loadMaterialTextures material .DIFFUSE "texture_diffuse" self).2).1 ++
        (loadMaterialTextures material .HEIGHT "texture_normal"
          (loadMaterialTextures material .SPECULAR "texture_specular"
            (loadMaterialTextures material .DIFFUSE "texture_diffuse" self).2).2).1 ∧
      m.textures.map Texture.getPath =
        (material.textures .DIFFUSE ++ material.textures .SPECULAR ++
          material.textures .HEIGHT).map (fun f => self.directory ++ "/" ++ f) ∧
      ((∀ t ∈ self.mTextureLoaded,
          t.typeName ∈ ["texture_diffuse", "texture_specular", "texture_normal"]) →
        ∀ t ∈ m.textures,
          t.typeName ∈ ["texture_diffuse", "texture_specular", "texture_normal"])) := by
  constructor
  · intro hv
    have hlt : mesh.mMaterialIndex < scene.mMaterials.length :=
      (List.getElem?_eq_some_iff.1 hmat).1
    exact processMesh_total mesh scene self hv (by simp [materialReadable, hlt])
  · intro m self' h
    obtain ⟨-, -, -, material', hmat', htex, -⟩ := processMesh_ok_inv mesh scene self self' m h
    · rw [hmat] at hmat'
      simp only [Option.some.injEq] at hmat'
      subst hmat'
      obtain ⟨n1, e1, p1, o1, f1, -⟩ :=
        loadMaterialTextures_spec material .DIFFUSE "texture_diffuse" self
      obtain ⟨n2, e2, p2, o2, f2, -⟩ :=
        loadMaterialTextures_spec material .SPECULAR "texture_specular"
          (loadMaterialTextures material .DIFFUSE "texture_diffuse" self).2
      obtain ⟨n3, e3, p3, o3, f3, -⟩ :=
        loadMaterialTextures_spec material .HEIGHT "texture_normal"
          (loadMaterialTextures material .SPECULAR "texture_specular"
            (loadMaterialTextures material .DIFFUSE "texture_diffuse" self).2).2
      have hshape : m.textures =
          (loadMaterialTextures material .DIFFUSE "texture_diffuse" self).1 ++
          (loadMaterialTextures material .SPECULAR "texture_specular"
            (loadMaterialTextures material .DIFFUSE "texture_diffuse" self).2).1 ++
          (loadMaterialTextures material .HEIGHT "texture_normal"
            (loadMaterialTextures material .SPECULAR "texture_specular"
              (loadMaterialTextures material .DIFFUSE "texture_diffuse" self).2).2).1 := by
        rw [htex]; simp [materialTextures]
      have hd1 : (loadMaterialTextures material .DIFFUSE "texture_diffuse" self).2.directory =
          self.directory := by rw [e1]
      have hd2 : (loadMaterialTextures material .SPECULAR "texture_specular"
          (loadMaterialTextures material .DIFFUSE "texture_diffuse" self).2).2.directory =
          self.directory := by rw [e2, e1]
      have hM1 : (loadMaterialTextures material .DIFFUSE "texture_diffuse" self).2.mTextureLoaded =
          self.mTextureLoaded ++ n1 := by rw [e1]
      have hM2 : (loadMaterialTextures material .SPECULAR "texture_specular"
          (loadMaterialTextures material .DIFFUSE "texture_diffuse" self).2).2.mTextureLoaded =
          self.mTextureLoaded ++ n1 ++ n2 := by rw [e2, e1]
      rw [hd1] at p2
      rw [hd2] at p3
      rw [hM1] at o2
      rw [hM2] at o3
      refine ⟨hshape, ?_, ?_⟩
      · rw [hshape]
        simp only [List.map_append, p1, p2, p3]
      · intro hold t ht
        have hn1 : ∀ u ∈ n1, u.typeName = "texture_diffuse" := fun u hu => (f1 u hu).2.1
        have hn2 : ∀ u ∈ n2, u.typeName = "texture_specular" := fun u hu => (f2 u hu).2.1
        have hn3 : ∀ u ∈ n3, u.typeName = "texture_normal" := fun u hu => (f3 u hu).2.1
        have hall : t ∈ self.mTextureLoaded ++ n1 ++ n2 ++ n3 := by
          rw [hshape] at ht
          simp only [List.mem_append] at ht ⊢
          rcases ht with (h1 | h2) | h3
          · rcases List.mem_append.1 (o1 t h1) with a | b
            · exact Or.inl (Or.inl (Or.inl a))
            · exact Or.inl (Or.inl (Or.inr b))
          · have := o2 t h2
            simp only [List.mem_append] at this
            exact Or.inl this
          · have := o3 t h3
            simp only [List.mem_append] at this
            exact this
        simp only [List.mem_append] at hall
        rcases hall with ((a | b) | c) | d
        · exact hold t a
        · rw [hn1 t b]; simp
        · rw [hn2 t c]; simp
        · rw [hn3 t d]; simp

/-- C16, witness: the sample triangle uses the material `plank`, which
declares two diffuse maps and nothing else. -/
theorem C16_textures_of_three_roles_witness :
    ∃ m self', processMesh Example.triangle Example.scene (Model.init 1) = .ok (m, self') ∧
      m.textures.map Texture.getPath =
        (Example.plank.textures .DIFFUSE ++ Example.plank.textures .SPECULAR ++
          Example.plank.textures .HEIGHT).map (fun f => (Model.init 1).directory ++ "/" ++ f) ∧
      ∀ t ∈ m.textures,
        t.typeName ∈ ["texture_diffuse", "texture_specular", "texture_normal"] := by
  have h := C16_textures_of_three_roles Example.triangle Example.scene (Model.init 1)
    Example.plank rfl
  obtain ⟨m, self', hok⟩ := h.1 rfl
  obtain ⟨-, h2, h3⟩ := h.2 m self' hok
  exact ⟨m, self', hok, h2, h3 (by simp [Model.init])⟩

/-- C17.  A texture that `loadMaterialTextures` returns for a path that is
already recorded is the recorded entry itself, whatever tag the call was given.
So it happens within one load that a call returns a texture whose tag is not
the tag of the call: the sample material `wood` declares `wood.png` as diffuse
and as specular map; after the diffuse call the specular call returns the entry
recorded with the tag `texture_diffuse`, and so the mesh of the sample quad
holds that entry twice. -/
theorem C17_reused_texture_keeps_first_tag :
    (∀ (mat : aiMaterial) (type : aiTextureType) (typeName : String) (self : Model)
        (t : Texture),
      t ∈ (loadMaterialTextures mat type typeName self).1 →
      t.getPath ∈ self.mTextureLoaded.map Texture.getPath →
      t ∈ self.mTextureLoaded) ∧
    (loadMaterialTextures Example.wood .SPECULAR "texture_specular"
        (loadMaterialTextures Example.wood .DIFFUSE "texture_diffuse" (Model.init 1)).2).1 =
      [⟨"/wood.png", "texture_diffuse"⟩] ∧
    (∃ t ∈ (loadMaterialTextures Example.wood .SPECULAR "texture_specular"
        (loadMaterialTextures Example.wood .DIFFUSE "texture_diffuse" (Model.init 1)).2).1,
      t.typeName ≠ "texture_specular") ∧
    (∃ m self', processMesh Example.quad Example.scene (Model.init 1) = .ok (m, self') ∧
      m.textures = [⟨"/wood.png", "texture_diffuse"⟩, ⟨"/wood.png", "texture_diffuse"⟩]) := by
  refine ⟨?_, rfl, ⟨⟨"/wood.png", "texture_diffuse"⟩, by decide, by decide⟩, _, _, rfl, rfl⟩
  intro mat type typeName self t ht hp
  obtain ⟨new, -, -, hout, hnew, -⟩ := loadMaterialTextures_spec mat type typeName self
  rcases List.mem_append.1 (hout t ht) with hold | hn
  · exact hold
  · exact absurd hp (hnew t hn).1

/-- C17, witness: the texture that the specular call returns for the sample
material has the recorded path, and is the recorded entry. -/
theorem C17_reused_texture_keeps_first_tag_witness :
    (⟨"/wood.png", "texture_diffuse"⟩ : Texture) ∈
      (loadMaterialTextures Example.wood .DIFFUSE "texture_diffuse"
        (Model.init 1)).2.mTextureLoaded :=
  C17_reused_texture_keeps_first_tag.1 Example.wood .SPECULAR "texture_specular"
    (loadMaterialTextures Example.wood .DIFFUSE "texture_diffuse" (Model.init 1)).2
    ⟨"/wood.png", "texture_diffuse"⟩ (by decide) (by decide)

end CraftGE
